import Mathlib

/-!
# remap-imports: a verification development

A shallow embedding of `src/remap-imports.go`, the tool that rewrites the
dependency imports of the Solidity sources under `./src` so that they point
into the vendored library folder `../lib`.

A Go string is modelled by the list of its characters.  The functions of the
Go package `strings` used by the program (`Contains`, `HasSuffix`, `Split`,
`ReplaceAll`, `Trim`) are defined first, then `createImportStatement`, then the
scanner loop of `main`, then the loop over the directory entries.  The lemmas
and the properties of the program follow the definitions.
-/

namespace RemapImports

/-- A Go string, as the list of its characters. -/
abbrev Str := List Char

/-! ## The package `strings` -/

/-- Go `strings.HasPrefix(s, p)`. -/
def hasPrefix : Str → Str → Bool
  | _, [] => true
  | [], _ :: _ => false
  | c :: s, d :: p => c == d && hasPrefix s p

/-- Go `strings.Contains(s, substr)`: `substr` occurs at some offset of `s`. -/
def contains : Str → Str → Bool
  | [], substr => hasPrefix [] substr
  | c :: s, substr => hasPrefix (c :: s) substr || contains s substr

/-- The scan of `strings.Split` for a non-empty separator: `skip` counts the
characters of a separator just matched that are still to be passed over, `cur`
is the segment being collected. -/
def splitAux (sep : Str) : Nat → Str → Str → List Str
  | _, [], cur => [cur]
  | skip + 1, _ :: s, cur => splitAux sep skip s cur
  | 0, c :: s, cur =>
    if hasPrefix (c :: s) sep then cur :: splitAux sep (sep.length - 1) s []
    else splitAux sep 0 s (cur ++ [c])

/-- Go `strings.Split(s, sep)`: the segments of `s` between the successive,
non-overlapping occurrences of `sep` (always at least one segment); with an
empty separator the string is cut after every character. -/
def split (s sep : Str) : List Str :=
  if sep = [] then s.map (fun c => [c]) else splitAux sep 0 s []

/-- The scan of `strings.ReplaceAll` for a non-empty `old`. -/
def replaceAllAux (old new : Str) : Nat → Str → Str
  | _, [] => []
  | skip + 1, _ :: s => replaceAllAux old new skip s
  | 0, c :: s =>
    if hasPrefix (c :: s) old then new ++ replaceAllAux old new (old.length - 1) s
    else c :: replaceAllAux old new 0 s

/-- Go `strings.ReplaceAll(s, old, new)`: every non-overlapping occurrence of
`old`, from the left, is replaced by `new`; an empty `old` matches before
every character and at the end. -/
def replaceAll (s old new : Str) : Str :=
  if old = [] then new ++ s.flatMap (fun c => c :: new) else replaceAllAux old new 0 s

/-- Go `strings.TrimLeft(s, cutset)`. -/
def trimLeft (s cutset : Str) : Str :=
  s.dropWhile (fun c => cutset.contains c)

/-- Go `strings.TrimRight(s, cutset)`. -/
def trimRight (s cutset : Str) : Str :=
  (s.reverse.dropWhile (fun c => cutset.contains c)).reverse

/-- Go `strings.Trim(s, cutset)`: the leading and trailing characters that
belong to `cutset` are removed. -/
def trim (s cutset : Str) : Str :=
  trimRight (trimLeft s cutset) cutset

/-! ## Constants -/

/-- The constant `libFolder`. -/
def libFolder : Str := "../lib".toList

/-- The constant `srcFolder`. -/
def srcFolder : Str := "./src".toList

/-- The constant `newSrcFolder`. -/
def newSrcFolder : Str := "./src-generated".toList

/-- The prefix of the message of the error of `createImportStatement`. -/
def invalidImportString : Str := "Invalid import string: ".toList

/-! ## `createImportStatement` -/

/-- The function `createImportStatement(contractName, importString)`.  The Go
pair `(string, error)` is the pair of the statement and of the message of the
error, `none` standing for `nil`. -/
def createImportStatement (contractName importString : Str) : Str × Option Str :=
  let result := "import \x7b".toList ++ contractName ++ "\x7d".toList ++ " from ".toList
  let path := split importString "/".toList
  match path with
  | [] => ([], some (invalidImportString ++ importString))
  | [_] => ([], some (invalidImportString ++ importString))
  | [p0, p1] =>
    let newPath := "\"".toList ++ libFolder ++ "/".toList
      ++ replaceAll p0 "\"".toList "".toList ++ "/src/".toList
    (result ++ (newPath ++ p1), none)
  | [p0, p1, p2] =>
    let newPath := "\"".toList ++ libFolder ++ "/".toList
      ++ replaceAll p0 "\"".toList "".toList ++ "/src/".toList
    (result ++ (newPath ++ (p1 ++ "/".toList ++ p2)), none)
  | _ :: _ :: _ :: _ :: _ => ([], some (invalidImportString ++ importString))

/-! ## The scanner loop of `main` -/

/-- How the processing of a file ends: the loop runs to the end of the file,
or `log.Fatal(err)` stops the program with the message of `err`, or an index
expression `tokens[i]` is out of range and the program panics. -/
inductive Status where
  | ok : Status
  | fatal (msg : Str) : Status
  | indexOutOfRange : Status
  deriving DecidableEq, Repr

/-- The effect of processing lines: the text written to the generated file
(every write is flushed at once) and how the processing ended. -/
structure Run where
  out : Str
  status : Status
  deriving DecidableEq, Repr

/-- The run in which nothing more is written, ending with `st`. -/
def Run.stop (st : Status) : Run := ⟨[], st⟩

/-- The three statements `writer.WriteString(s)`, `writer.WriteString("\n")`,
`writer.Flush()`, followed by the rest of the run `k`. -/
def writeLine (s : Str) (k : Run) : Run :=
  ⟨s ++ "\n".toList ++ k.out, k.status⟩

/-- Lines 107-121 of `main`, "Substitute import statement": the logical
statement `line` is cut at the spaces, the contract name is `tokens[1]` without
braces, the import string is `tokens[3]`; `k` is the rest of the run. -/
def substituteImport (line : Str) (k : Run) : Run :=
  let tokens := split line " ".toList
  match tokens.get? 1 with
  | none => Run.stop Status.indexOutOfRange
  | some t1 =>
    let contractName := replaceAll t1 "\x7b".toList "".toList
    let contractName := replaceAll contractName "\x7d".toList "".toList
    match tokens.get? 3 with
    | none => Run.stop Status.indexOutOfRange
    | some importString =>
      match createImportStatement contractName importString with
      | (_, some err) => Run.stop (Status.fatal err)
      | (newImportStatement, none) => writeLine newImportStatement k

/-- Lines 102-104 of `main`: the two following lines are appended to `line`,
after removal of their newline symbols. -/
def concatLines (line nextLine nNextLine : Str) : Str :=
  line ++ replaceAll nextLine "\n".toList "".toList
    ++ replaceAll nNextLine "\n".toList "".toList

/-- The loop `for scanner.Scan() { ... }` of `main` (lines 62-122) over the
lines that the scanner yields.  In the multi-line case the two calls of
`scanner.Scan()` take the next two lines; when the scanner is exhausted
`scanner.Text()` is the empty string and the loop ends afterwards. -/
def processLines : List Str → Run
  | [] => Run.stop Status.ok
  | line :: rest =>
    if !contains line "import".toList then writeLine line (processLines rest)
    else if contains line "from \"./".toList then writeLine line (processLines rest)
    else if !contains line "\x7b".toList then writeLine line (processLines rest)
    else if !contains line "\x7d".toList then
      match rest with
      | [] =>
        substituteImport (concatLines line (trim [] " ".toList) []) (Run.stop Status.ok)
      | [l2] =>
        substituteImport (concatLines line (trim l2 " ".toList) []) (Run.stop Status.ok)
      | l2 :: l3 :: rest2 =>
        substituteImport (concatLines line (trim l2 " ".toList) l3) (processLines rest2)
    else substituteImport line (processLines rest)

/-! ## The loop over the directory entries -/

/-- Every character of `s` is outside `cs`. -/
def avoids (s cs : Str) : Prop := ∀ c ∈ s, c ∉ cs

instance (s cs : Str) : Decidable (avoids s cs) := by
  unfold avoids; infer_instance

/-- The single-line braced import `import {X} from "P"`. -/
def importLine (X P : Str) : Str :=
  "import \x7b".toList ++ X ++ "\x7d from \"".toList ++ P ++ "\"".toList

/-- The rewritten statement `import {X} from "../lib/pkg/src/tail"`. -/
def rewritten (X pkg tail : Str) : Str :=
  "import \x7b".toList ++ X ++ "\x7d from \"../lib/".toList ++ pkg ++ "/src/".toList
    ++ tail ++ "\"".toList

/-- The part of `s` before its first `/` (all of `s` when it has none). -/
def firstSegment (s : Str) : Str := s.takeWhile (fun c => c != '/')

/-- The part of `s` after its first `/` (empty when it has none). -/
def afterFirstSlash (s : Str) : Str := (s.dropWhile (fun c => c != '/')).drop 1

/-- The string `s` without its double quotes. -/
def withoutQuotes (s : Str) : Str := s.filter (fun c => c != '"')

/-- The strings `ts` joined by the character `c`. -/
def joinWith (c : Char) : List Str → Str
  | [] => []
  | [t] => t
  | t :: t2 :: ts => t ++ c :: joinWith c (t2 :: ts)

/-- The braced import of the symbol `X` from the path `P`, written with the
indentation `ind`, the separators `s1`, `s2`, `s3` between its four tokens and
the padding `pad` inside the braces. -/
def layout (ind s1 s2 s3 pad X P : Str) : Str :=
  ind ++ "import".toList ++ s1 ++ "\x7b".toList ++ pad ++ X ++ pad ++ "\x7d".toList ++ s2
    ++ "from".toList ++ s3 ++ "\"".toList ++ P ++ "\"".toList

/-- The four tokens of the import of `X` from `P`. -/
def importTokens (X P : Str) : List Str :=
  ["import".toList, "\x7b".toList ++ X ++ "\x7d".toList, "from".toList,
    "\"".toList ++ P ++ "\"".toList]

/-- The lines `ls` are whole statements: the scanner loop started on `ls`
followed by other lines takes `ls` a statement at a time, a multi-line import
of `ls` finding its two following lines in `ls`. -/
def wholeStatements : List Str → Bool
  | [] => true
  | line :: rest =>
    if !contains line "import".toList then wholeStatements rest
    else if contains line "from \"./".toList then wholeStatements rest
    else if !contains line "\x7b".toList then wholeStatements rest
    else if !contains line "\x7d".toList then
      match rest with
      | [] => false
      | [_] => false
      | _ :: _ :: rest2 => wholeStatements rest2
    else wholeStatements rest

/-- The statement `import {X} from T`, `T` being the token of the path. -/
def bracedImport (X T : Str) : Str :=
  "import \x7b".toList ++ X ++ "\x7d from ".toList ++ T

theorem hasPrefix_nil (s : Str) : hasPrefix s [] = true := by
  cases s <;> rfl

theorem hasPrefix_append_same (a s p : Str) :
    hasPrefix (a ++ s) (a ++ p) = hasPrefix s p := by
  induction a with
  | nil => rfl
  | cons c a ih => simp [hasPrefix, ih]

theorem contains_of_hasPrefix {s p : Str} (h : hasPrefix s p = true) :
    contains s p = true := by
  cases s with
  | nil => simpa [contains] using h
  | cons c s => simp [contains, h]

theorem contains_append_left (a : Str) {s p : Str} (h : contains s p = true) :
    contains (a ++ s) p = true := by
  induction a with
  | nil => simpa using h
  | cons c a ih => simp [contains, ih]

/-- A pattern with a character that `s` lacks does not occur in `s`. -/
theorem hasPrefix_false_of_not_mem {s p : Str} {d : Char} (hd : d ∈ p) (hs : d ∉ s) :
    hasPrefix s p = false := by
  induction s generalizing p with
  | nil => cases p with
    | nil => simp at hd
    | cons e p => rfl
  | cons c s ih =>
    cases p with
    | nil => simp at hd
    | cons e p =>
      simp only [List.mem_cons, not_or] at hs
      rcases List.mem_cons.1 hd with h | h
      · subst h
        have : ¬ (c = d) := fun h => hs.1 h.symm
        simp [hasPrefix, this]
      · simp [hasPrefix, ih h hs.2]

theorem contains_false_of_not_mem {s p : Str} {d : Char} (hd : d ∈ p) (hs : d ∉ s) :
    contains s p = false := by
  induction s with
  | nil => simpa [contains] using hasPrefix_false_of_not_mem hd hs
  | cons c s ih =>
    have hs2 : d ∉ s := fun h => hs (List.mem_cons_of_mem _ h)
    simp [contains, ih hs2, hasPrefix_false_of_not_mem hd hs]

/-- A pattern `u ++ d :: v` does not match at the start of `x ++ e :: t` when
`x` lacks `d` and `e` is neither `d` nor a character of `u`. -/
theorem hasPrefix_false_of_stop (u v x t : Str) (d e : Char)
    (hx : d ∉ x) (he : e ≠ d) (heu : e ∉ u) :
    hasPrefix (x ++ e :: t) (u ++ d :: v) = false := by
  induction u generalizing x with
  | nil =>
    cases x with
    | nil => simp [hasPrefix, he]
    | cons c x =>
      have : ¬ (c = d) := fun h => hx (by simp [h])
      simp [hasPrefix, this]
  | cons a u ih =>
    simp only [List.mem_cons, not_or] at heu
    cases x with
    | nil => simp [hasPrefix, heu.1]
    | cons c x =>
      have hx2 : d ∉ x := fun h => hx (List.mem_cons_of_mem _ h)
      simp [hasPrefix, ih x hx2 heu.2]

theorem contains_skip_of_stop (u v x t : Str) (d e : Char)
    (hx : d ∉ x) (he : e ≠ d) (heu : e ∉ u) :
    contains (x ++ e :: t) (u ++ d :: v) = contains (e :: t) (u ++ d :: v) := by
  induction x with
  | nil => rfl
  | cons c x ih =>
    have hx2 : d ∉ x := fun h => hx (List.mem_cons_of_mem _ h)
    have h1 := hasPrefix_false_of_stop u v (c :: x) t d e hx he heu
    simp only [List.cons_append] at h1 ⊢
    rw [contains, h1, ih hx2]; rfl

theorem splitAux_single_of_not_mem (c : Char) (x cur : Str) (hx : c ∉ x) :
    splitAux [c] 0 x cur = [cur ++ x] := by
  induction x generalizing cur with
  | nil => simp [splitAux]
  | cons a x ih =>
    simp only [List.mem_cons, not_or] at hx
    have : ¬ (a = c) := fun h => hx.1 h.symm
    simp [splitAux, hasPrefix, this, ih _ hx.2]

theorem splitAux_single_append (c : Char) (x t cur : Str) (hx : c ∉ x) :
    splitAux [c] 0 (x ++ c :: t) cur = (cur ++ x) :: splitAux [c] 0 t [] := by
  induction x generalizing cur with
  | nil => simp [splitAux, hasPrefix, hasPrefix_nil]
  | cons a x ih =>
    simp only [List.mem_cons, not_or] at hx
    have : ¬ (a = c) := fun h => hx.1 h.symm
    simp [splitAux, hasPrefix, this, ih _ hx.2]

theorem split_single_of_not_mem (c : Char) (x : Str) (hx : c ∉ x) :
    split x [c] = [x] := by
  simp [split, splitAux_single_of_not_mem c x [] hx]

theorem split_single_append (c : Char) (x t : Str) (hx : c ∉ x) :
    split (x ++ c :: t) [c] = x :: split t [c] := by
  simp [split, splitAux_single_append c x t [] hx]

theorem replaceAllAux_single_of_not_mem (c : Char) (new x : Str) (hx : c ∉ x) :
    replaceAllAux [c] new 0 x = x := by
  induction x with
  | nil => rfl
  | cons a x ih =>
    simp only [List.mem_cons, not_or] at hx
    have : ¬ (a = c) := fun h => hx.1 h.symm
    simp [replaceAllAux, hasPrefix, this, ih hx.2]

theorem replaceAllAux_single_append (c : Char) (new x t : Str) :
    replaceAllAux [c] new 0 (x ++ t)
      = replaceAllAux [c] new 0 x ++ replaceAllAux [c] new 0 t := by
  induction x with
  | nil => simp [replaceAllAux]
  | cons a x ih =>
    by_cases h : a = c
    · simp [replaceAllAux, hasPrefix, h, hasPrefix_nil, ih]
    · simp [replaceAllAux, hasPrefix, h, ih]

theorem replaceAll_single_of_not_mem (c : Char) (new x : Str) (hx : c ∉ x) :
    replaceAll x [c] new = x := by
  simp [replaceAll, replaceAllAux_single_of_not_mem c new x hx]

theorem replaceAll_single_append (c : Char) (new x t : Str) :
    replaceAll (x ++ t) [c] new = replaceAll x [c] new ++ replaceAll t [c] new := by
  simp [replaceAll, replaceAllAux_single_append]

theorem replaceAll_single_cons_self (c : Char) (new t : Str) :
    replaceAll (c :: t) [c] new = new ++ replaceAll t [c] new := by
  simp [replaceAll, replaceAllAux, hasPrefix, hasPrefix_nil]

/-! ## Single-line braced imports -/

theorem hasPrefix_dotSlash_append (P t : Str) (e : Char)
    (hP : hasPrefix P "./".toList = false) (h1 : e ≠ '.') (h2 : e ≠ '/') :
    hasPrefix (P ++ e :: t) "./".toList = false := by
  rcases P with _ | ⟨a, _ | ⟨b, P⟩⟩ <;> simp_all [hasPrefix]

theorem importLine_contains_import (X P : Str) :
    contains (importLine X P) "import".toList = true := by
  simp [importLine, contains, hasPrefix]

theorem importLine_contains_open (X P : Str) :
    contains (importLine X P) "\x7b".toList = true := by
  simp [importLine, contains, hasPrefix]

theorem importLine_contains_close (X P : Str) :
    contains (importLine X P) "\x7d".toList = true := by
  have h : contains ("\x7d from \"".toList ++ P ++ "\"".toList) "\x7d".toList = true := by
    simp [contains, hasPrefix]
  have := contains_append_left ("import \x7b".toList ++ X) h
  simpa [importLine] using this

theorem importLine_not_local (X P : Str) (hX : ' ' ∉ X) (hP : ' ' ∉ P)
    (hrel : hasPrefix P "./".toList = false) :
    contains (importLine X P) "from \"./".toList = false := by
  have h1 := contains_skip_of_stop "from".toList "\"./".toList X
    (" from \"".toList ++ P ++ "\"".toList) ' ' '\x7d' hX (by decide) (by decide)
  have h2 : contains (P ++ "\"".toList) "from \"./".toList = false :=
    contains_false_of_not_mem (d := ' ') (by decide) (by simpa using hP)
  have h3 : hasPrefix (P ++ "\"".toList) "./".toList = false :=
    hasPrefix_dotSlash_append P [] '"' hrel (by decide) (by decide)
  simp only [String.toList, List.cons_append, List.nil_append, List.append_assoc] at h1 h2 h3
  simp [importLine, contains, hasPrefix, h1, h2, h3]

theorem split_importLine (X P : Str) (hX : ' ' ∉ X) (hP : ' ' ∉ P) :
    split (importLine X P) " ".toList
      = ["import".toList, "\x7b".toList ++ X ++ "\x7d".toList, "from".toList,
          "\"".toList ++ P ++ "\"".toList] := by
  have e : importLine X P = "import".toList ++ ' ' :: (("\x7b".toList ++ X ++ "\x7d".toList)
      ++ ' ' :: ("from".toList ++ ' ' :: ("\"".toList ++ P ++ "\"".toList))) := by
    simp [importLine]
  have h1 : ' ' ∉ "import".toList := by decide
  have h2 : ' ' ∉ "\x7b".toList ++ X ++ "\x7d".toList := by simpa using hX
  have h3 : ' ' ∉ "from".toList := by decide
  have h4 : ' ' ∉ "\"".toList ++ P ++ "\"".toList := by simpa using hP
  have hs : " ".toList = [' '] := rfl
  rw [e, hs, split_single_append _ _ _ h1, split_single_append _ _ _ h2,
    split_single_append _ _ _ h3, split_single_of_not_mem _ _ h4]

theorem contractName_of_braced (X : Str) (ho : '\x7b' ∉ X) (hc : '\x7d' ∉ X) :
    replaceAll (replaceAll ("\x7b".toList ++ X ++ "\x7d".toList) "\x7b".toList "".toList)
      "\x7d".toList "".toList = X := by
  have h1 : replaceAll ('\x7b' :: (X ++ ['\x7d'])) ['\x7b'] [] = X ++ ['\x7d'] := by
    have : '\x7b' ∉ X ++ ['\x7d'] := by simpa using ho
    rw [replaceAll_single_cons_self, replaceAll_single_of_not_mem _ _ _ this]; rfl
  have h2 : replaceAll (X ++ ['\x7d']) ['\x7d'] [] = X := by
    rw [replaceAll_single_append, replaceAll_single_of_not_mem _ _ X hc,
      replaceAll_single_cons_self]
    simp [replaceAll, replaceAllAux]
  have e1 : "\x7b".toList ++ X ++ "\x7d".toList = '\x7b' :: (X ++ ['\x7d']) := by simp
  have e2 : "\x7b".toList = ['\x7b'] := rfl
  have e3 : "\x7d".toList = ['\x7d'] := rfl
  have e4 : "".toList = ([] : Str) := rfl
  rw [e1, e2, e3, e4, h1, h2]

/-- On a single-line braced import the substitution calls `createImportStatement`
with the symbol and with the quoted path. -/
theorem substituteImport_importLine (X P : Str) (k : Run)
    (hX : avoids X " \x7b\x7d".toList) (hP : ' ' ∉ P) :
    substituteImport (importLine X P) k
      = match createImportStatement X ("\"".toList ++ P ++ "\"".toList) with
        | (_, some err) => Run.stop (Status.fatal err)
        | (newImportStatement, none) => writeLine newImportStatement k := by
  have hs : ' ' ∉ X := fun h => hX _ h (by decide)
  have ho : '\x7b' ∉ X := fun h => hX _ h (by decide)
  have hc : '\x7d' ∉ X := fun h => hX _ h (by decide)
  unfold substituteImport
  rw [split_importLine X P hs hP]
  simp only [List.get?_cons_succ, List.get?_cons_zero, contractName_of_braced X ho hc]

theorem split_quoted_two (pkg file : Str) (hpkg : '/' ∉ pkg) (hfile : '/' ∉ file) :
    split ("\"".toList ++ (pkg ++ "/".toList ++ file) ++ "\"".toList) "/".toList
      = ['"' :: pkg, file ++ ['"']] := by
  have e : "\"".toList ++ (pkg ++ "/".toList ++ file) ++ "\"".toList
      = ('"' :: pkg) ++ '/' :: (file ++ ['"']) := by simp
  have h3 : '/' ∉ '"' :: pkg := by simpa using hpkg
  have h4 : '/' ∉ file ++ ['"'] := by simpa using hfile
  have hs : "/".toList = ['/'] := rfl
  rw [e, hs, split_single_append _ _ _ h3, split_single_of_not_mem _ _ h4]

theorem split_quoted_three (pkg sub file : Str) (hpkg : '/' ∉ pkg) (hsub : '/' ∉ sub)
    (hfile : '/' ∉ file) :
    split ("\"".toList ++ (pkg ++ "/".toList ++ sub ++ "/".toList ++ file) ++ "\"".toList)
      "/".toList = ['"' :: pkg, sub, file ++ ['"']] := by
  have e : "\"".toList ++ (pkg ++ "/".toList ++ sub ++ "/".toList ++ file) ++ "\"".toList
      = ('"' :: pkg) ++ '/' :: (sub ++ '/' :: (file ++ ['"'])) := by simp
  have h3 : '/' ∉ '"' :: pkg := by simpa using hpkg
  have h4 : '/' ∉ file ++ ['"'] := by simpa using hfile
  have hs : "/".toList = ['/'] := rfl
  rw [e, hs, split_single_append _ _ _ h3, split_single_append _ _ _ hsub,
    split_single_of_not_mem _ _ h4]

theorem replaceAll_quote_cons (pkg : Str) (h : '"' ∉ pkg) :
    replaceAll ('"' :: pkg) ['"'] [] = pkg := by
  rw [replaceAll_single_cons_self, replaceAll_single_of_not_mem _ _ _ h]; rfl

theorem createImportStatement_two (X pkg file : Str)
    (hpkg : avoids pkg "/\"".toList) (hfile : '/' ∉ file) :
    createImportStatement X ("\"".toList ++ (pkg ++ "/".toList ++ file) ++ "\"".toList)
      = (rewritten X pkg file, none) := by
  have h1 : '/' ∉ pkg := fun h => hpkg _ h (by decide)
  have h2 : '"' ∉ pkg := fun h => hpkg _ h (by decide)
  unfold createImportStatement
  rw [split_quoted_two pkg file h1 hfile]
  simp [replaceAll_quote_cons pkg h2, rewritten, libFolder]

theorem createImportStatement_three (X pkg sub file : Str)
    (hpkg : avoids pkg "/\"".toList) (hsub : '/' ∉ sub) (hfile : '/' ∉ file) :
    createImportStatement X
        ("\"".toList ++ (pkg ++ "/".toList ++ sub ++ "/".toList ++ file) ++ "\"".toList)
      = (rewritten X pkg (sub ++ "/".toList ++ file), none) := by
  have h1 : '/' ∉ pkg := fun h => hpkg _ h (by decide)
  have h2 : '"' ∉ pkg := fun h => hpkg _ h (by decide)
  unfold createImportStatement
  rw [split_quoted_three pkg sub file h1 hsub hfile]
  simp [replaceAll_quote_cons pkg h2, rewritten, libFolder]

theorem hasPrefix_dotSlash_path (pkg tail : Str) (hdot : pkg.head? ≠ some '.') :
    hasPrefix (pkg ++ "/".toList ++ tail) "./".toList = false := by
  rcases pkg with _ | ⟨a, pkg⟩
  · simp [hasPrefix]
  · have : ¬ (a = '.') := fun h => hdot (by simp [h])
    simp [hasPrefix, this]

/-- One turn of the scanner loop. -/
theorem processLines_cons (line : Str) (rest : List Str) :
    processLines (line :: rest)
      = if !contains line "import".toList then writeLine line (processLines rest)
        else if contains line "from \"./".toList then writeLine line (processLines rest)
        else if !contains line "\x7b".toList then writeLine line (processLines rest)
        else if !contains line "\x7d".toList then
          match rest with
          | [] =>
            substituteImport (concatLines line (trim [] " ".toList) []) (Run.stop Status.ok)
          | [l2] =>
            substituteImport (concatLines line (trim l2 " ".toList) []) (Run.stop Status.ok)
          | l2 :: l3 :: rest2 =>
            substituteImport (concatLines line (trim l2 " ".toList) l3) (processLines rest2)
        else substituteImport line (processLines rest) := by
  rw [processLines.eq_def]

/-- A single-line braced import that is not relative goes to the substitution. -/
theorem processLines_importLine (X P : Str) (rest : List Str) (hX : ' ' ∉ X) (hP : ' ' ∉ P)
    (hrel : hasPrefix P "./".toList = false) :
    processLines (importLine X P :: rest)
      = substituteImport (importLine X P) (processLines rest) := by
  rw [processLines_cons, importLine_contains_import, importLine_contains_open,
    importLine_contains_close, importLine_not_local X P hX hP hrel]
  rfl

theorem writeLine_stop (s : Str) :
    writeLine s (Run.stop Status.ok) = ⟨s ++ "\n".toList, Status.ok⟩ := by
  simp [writeLine, Run.stop]

/-- C1 (two-segment rewrite): the file made of the single line
`import {X} from "pkg/file"` is processed without error and the text written is
exactly `import {X} from "../lib/pkg/src/file"` followed by a newline.  The
symbol may be any string without space or brace, the package any string without
space, slash or double quote that does not start with a dot, the file name any
string without space or slash (the names of the claim are of this kind). -/
theorem two_segment_rewrite (X pkg file : Str)
    (hX : avoids X " \x7b\x7d".toList) (hpkg : avoids pkg " /\"".toList)
    (hdot : pkg.head? ≠ some '.') (hfile : avoids file " /".toList) :
    processLines [importLine X (pkg ++ "/".toList ++ file)]
      = ⟨rewritten X pkg file ++ "\n".toList, Status.ok⟩ := by
  have hXs : ' ' ∉ X := fun h => hX _ h (by decide)
  have hP : ' ' ∉ pkg ++ "/".toList ++ file := by
    have h1 : ' ' ∉ pkg := fun h => hpkg _ h (by decide)
    have h2 : ' ' ∉ file := fun h => hfile _ h (by decide)
    simp [h1, h2]
  have hpkg2 : avoids pkg "/\"".toList := fun c hc hm =>
    hpkg c hc (by simp at hm ⊢; tauto)
  have hfile2 : '/' ∉ file := fun h => hfile _ h (by decide)
  rw [processLines_importLine X _ [] hXs hP (hasPrefix_dotSlash_path pkg file hdot),
    substituteImport_importLine X _ _ hX hP, createImportStatement_two X pkg file hpkg2 hfile2]
  exact writeLine_stop _

theorem two_segment_rewrite_witness :
    processLines ["import \x7bERC20\x7d from \"solmate/ERC20.sol\"".toList]
      = ⟨"import \x7bERC20\x7d from \"../lib/solmate/src/ERC20.sol\"\n".toList, Status.ok⟩ :=
  two_segment_rewrite "ERC20".toList "solmate".toList "ERC20.sol".toList
    (by decide) (by decide) (by decide) (by decide)

/-- C2 (three-segment rewrite): the file made of the single line
`import {X} from "pkg/sub/file"` is processed without error and the text written
is exactly `import {X} from "../lib/pkg/src/sub/file"` followed by a newline.
The symbol may be any string without space or brace, the package any string
without space, slash or double quote that does not start with a dot, the
sub-folder and the file name any strings without space or slash. -/
theorem three_segment_rewrite (X pkg sub file : Str)
    (hX : avoids X " \x7b\x7d".toList) (hpkg : avoids pkg " /\"".toList)
    (hdot : pkg.head? ≠ some '.') (hsub : avoids sub " /".toList)
    (hfile : avoids file " /".toList) :
    processLines [importLine X (pkg ++ "/".toList ++ sub ++ "/".toList ++ file)]
      = ⟨rewritten X pkg (sub ++ "/".toList ++ file) ++ "\n".toList, Status.ok⟩ := by
  have hXs : ' ' ∉ X := fun h => hX _ h (by decide)
  have hP : ' ' ∉ pkg ++ "/".toList ++ sub ++ "/".toList ++ file := by
    have h1 : ' ' ∉ pkg := fun h => hpkg _ h (by decide)
    have h2 : ' ' ∉ sub := fun h => hsub _ h (by decide)
    have h3 : ' ' ∉ file := fun h => hfile _ h (by decide)
    simp [h1, h2, h3]
  have hpkg2 : avoids pkg "/\"".toList := fun c hc hm =>
    hpkg c hc (by simp at hm ⊢; tauto)
  have hsub2 : '/' ∉ sub := fun h => hsub _ h (by decide)
  have hfile2 : '/' ∉ file := fun h => hfile _ h (by decide)
  have hrel : hasPrefix (pkg ++ "/".toList ++ sub ++ "/".toList ++ file) "./".toList = false := by
    have := hasPrefix_dotSlash_path pkg (sub ++ "/".toList ++ file) hdot
    simpa using this
  rw [processLines_importLine X _ [] hXs hP hrel, substituteImport_importLine X _ _ hX hP,
    createImportStatement_three X pkg sub file hpkg2 hsub2 hfile2]
  exact writeLine_stop _

theorem three_segment_rewrite_witness :
    processLines
        ["import \x7bIERC20\x7d from \"openzeppelin/interfaces/IERC20.sol\"".toList]
      = ⟨"import \x7bIERC20\x7d from \"../lib/openzeppelin/src/interfaces/IERC20.sol\"\n".toList,
          Status.ok⟩ :=
  three_segment_rewrite "IERC20".toList "openzeppelin".toList "interfaces".toList
    "IERC20.sol".toList (by decide) (by decide) (by decide) (by decide) (by decide)

/-- C3 (non-import pass-through): a line `L` without the substring `import` is
written unchanged, followed by one newline; no error is raised and no further
line is taken, the lines after `L` being processed as a file of their own. -/
theorem non_import_passthrough (L : Str) (h : contains L "import".toList = false) :
    processLines [L] = ⟨L ++ "\n".toList, Status.ok⟩
      ∧ ∀ rest : List Str, processLines (L :: rest)
          = ⟨L ++ "\n".toList ++ (processLines rest).out, (processLines rest).status⟩ := by
  have key : ∀ rest : List Str, processLines (L :: rest) = writeLine L (processLines rest) := by
    intro rest
    rw [processLines_cons, h]
    rfl
  exact ⟨(key []).trans (writeLine_stop L), fun rest => key rest⟩

theorem non_import_passthrough_witness :
    processLines ["contract Reserve is Ownable \x7b".toList]
        = ⟨"contract Reserve is Ownable \x7b\n".toList, Status.ok⟩
      ∧ ∀ rest : List Str, processLines ("contract Reserve is Ownable \x7b".toList :: rest)
          = ⟨"contract Reserve is Ownable \x7b".toList ++ "\n".toList ++ (processLines rest).out,
              (processLines rest).status⟩ :=
  non_import_passthrough "contract Reserve is Ownable \x7b".toList (by decide)

/-- C4 (relative import on one line): a line that contains `import` and
`from "./` is written unchanged, followed by one newline, with or without
braces; no error is raised and no further line is taken. -/
theorem relative_import_passthrough (L : Str) (h1 : contains L "import".toList = true)
    (h2 : contains L "from \"./".toList = true) :
    processLines [L] = ⟨L ++ "\n".toList, Status.ok⟩
      ∧ ∀ rest : List Str, processLines (L :: rest)
          = ⟨L ++ "\n".toList ++ (processLines rest).out, (processLines rest).status⟩ := by
  have key : ∀ rest : List Str, processLines (L :: rest) = writeLine L (processLines rest) := by
    intro rest
    rw [processLines_cons, h1, h2]
    rfl
  exact ⟨(key []).trans (writeLine_stop L), fun rest => key rest⟩

theorem relative_import_passthrough_witness :
    processLines ["import \x7bIOracle\x7d from \"./interfaces/IOracle.sol\";".toList]
        = ⟨"import \x7bIOracle\x7d from \"./interfaces/IOracle.sol\";\n".toList, Status.ok⟩
      ∧ ∀ rest : List Str,
        processLines ("import \x7bIOracle\x7d from \"./interfaces/IOracle.sol\";".toList :: rest)
          = ⟨"import \x7bIOracle\x7d from \"./interfaces/IOracle.sol\";".toList ++ "\n".toList
                ++ (processLines rest).out, (processLines rest).status⟩ :=
  relative_import_passthrough "import \x7bIOracle\x7d from \"./interfaces/IOracle.sol\";".toList
    (by decide) (by decide)

/-- C5 (whole-module import): a line that contains `import` and no opening brace
is written unchanged, followed by one newline, whatever its import path; no
error is raised and no further line is taken. -/
theorem whole_module_passthrough (L : Str) (h1 : contains L "import".toList = true)
    (h2 : contains L "\x7b".toList = false) :
    processLines [L] = ⟨L ++ "\n".toList, Status.ok⟩
      ∧ ∀ rest : List Str, processLines (L :: rest)
          = ⟨L ++ "\n".toList ++ (processLines rest).out, (processLines rest).status⟩ := by
  have key : ∀ rest : List Str, processLines (L :: rest) = writeLine L (processLines rest) := by
    intro rest
    rw [processLines_cons, h1, h2]
    cases contains L "from \"./".toList <;> rfl
  exact ⟨(key []).trans (writeLine_stop L), fun rest => key rest⟩

theorem whole_module_passthrough_witness :
    processLines ["import \"solmate/tokens/ERC20.sol\";".toList]
        = ⟨"import \"solmate/tokens/ERC20.sol\";\n".toList, Status.ok⟩
      ∧ ∀ rest : List Str, processLines ("import \"solmate/tokens/ERC20.sol\";".toList :: rest)
          = ⟨"import \"solmate/tokens/ERC20.sol\";".toList ++ "\n".toList
                ++ (processLines rest).out, (processLines rest).status⟩ :=
  whole_module_passthrough "import \"solmate/tokens/ERC20.sol\";".toList (by decide) (by decide)

theorem trimLeft_spaces (n : Nat) (X : Str) (hX : ' ' ∉ X) :
    trimLeft (List.replicate n ' ' ++ X) " ".toList = X := by
  induction n with
  | zero =>
    cases X with
    | nil => rfl
    | cons a X =>
      have : ¬ (a = ' ') := fun h => hX (by simp [h])
      simp [trimLeft, List.dropWhile, this]
  | succ n ih =>
    simpa [trimLeft, List.replicate_succ, List.dropWhile] using ih

theorem trimRight_of_not_mem (X : Str) (hX : ' ' ∉ X) : trimRight X " ".toList = X := by
  have h : ∀ Y : Str, ' ' ∉ Y → Y.dropWhile (fun c => " ".toList.contains c) = Y := by
    intro Y hY
    cases Y with
    | nil => rfl
    | cons a Y =>
      have : ¬ (a = ' ') := fun h => hY (by simp [h])
      simp [List.dropWhile, this]
  have hr : ' ' ∉ X.reverse := by simpa using hX
  simp only [trimRight, h _ hr, List.reverse_reverse]

theorem trim_spaces (n : Nat) (X : Str) (hX : ' ' ∉ X) :
    trim (List.replicate n ' ' ++ X) " ".toList = X := by
  rw [trim, trimLeft_spaces n X hX, trimRight_of_not_mem X hX]

/-- C6 (three-line merge): for every symbol `X` and path `P` without space or
newline, `P` not starting with `./` (so for the paths `pkg/file` and
`pkg/sub/file` of a dependency), and for every number `n` of leading spaces, the
three lines `import {`, `n` spaces then `X`, `} from "P"` give the same run, the
same text written and the same end, as the one line `import {X} from "P"`,
whatever lines follow. -/
theorem three_line_merge (X P : Str) (n : Nat) (hX : avoids X " \n".toList)
    (hP : avoids P " \n".toList) (hrel : hasPrefix P "./".toList = false)
    (rest : List Str) :
    processLines ("import \x7b".toList :: (List.replicate n ' ' ++ X)
        :: ("\x7d from \"".toList ++ P ++ "\"".toList) :: rest)
      = processLines (importLine X P :: rest) := by
  have hXs : ' ' ∉ X := fun h => hX _ h (by decide)
  have hXn : '\n' ∉ X := fun h => hX _ h (by decide)
  have hPs : ' ' ∉ P := fun h => hP _ h (by decide)
  have hPn : '\n' ∉ "\x7d from \"".toList ++ P ++ "\"".toList := by
    have : '\n' ∉ P := fun h => hP _ h (by decide)
    simpa using this
  have h1 : contains "import \x7b".toList "import".toList = true := by decide
  have h2 : contains "import \x7b".toList "from \"./".toList = false := by decide
  have h3 : contains "import \x7b".toList "\x7b".toList = true := by decide
  have h4 : contains "import \x7b".toList "\x7d".toList = false := by decide
  have hn : "\n".toList = ['\n'] := rfl
  have hm : concatLines "import \x7b".toList (trim (List.replicate n ' ' ++ X) " ".toList)
      ("\x7d from \"".toList ++ P ++ "\"".toList) = importLine X P := by
    rw [trim_spaces n X hXs, concatLines, hn, replaceAll_single_of_not_mem _ _ _ hXn,
      replaceAll_single_of_not_mem _ _ _ hPn]
    simp [importLine]
  rw [processLines_cons, h1, h2, h3, h4, processLines_importLine X P rest hXs hPs hrel]
  simp only [Bool.not_true, Bool.not_false, Bool.false_eq_true, if_false, if_true, hm]

theorem three_line_merge_witness :
    processLines ["import \x7b".toList, "    ERC20".toList,
        "\x7d from \"solmate/tokens/ERC20.sol\"".toList, "contract A \x7b\x7d".toList]
      = processLines ["import \x7bERC20\x7d from \"solmate/tokens/ERC20.sol\"".toList,
          "contract A \x7b\x7d".toList] :=
  three_line_merge "ERC20".toList "solmate/tokens/ERC20.sol".toList 4
    (by decide) (by decide) (by decide) ["contract A \x7b\x7d".toList]

/-- C7 (failure of `createImportStatement`): for every contract name and import
string, an error is returned exactly when the import string, cut at the
slashes, has fewer than 2 or more than 3 segments; and an error is returned
exactly when the result is the empty statement together with the message
`Invalid import string: ` followed by the import string itself. -/
theorem createImportStatement_fails_iff (contractName importString : Str) :
    ((createImportStatement contractName importString).2 ≠ none
        ↔ (split importString "/".toList).length < 2
          ∨ 3 < (split importString "/".toList).length)
      ∧ ((createImportStatement contractName importString).2 ≠ none
        ↔ createImportStatement contractName importString
          = ([], some ("Invalid import string: ".toList ++ importString))) := by
  unfold createImportStatement
  rcases split importString "/".toList with _ | ⟨a, _ | ⟨b, _ | ⟨c, _ | ⟨d, l⟩⟩⟩⟩ <;>
    simp [invalidImportString]

theorem split_single_cases (c : Char) (s : Str) :
    (c ∉ s ∧ split s [c] = [s])
      ∨ ∃ a b, s = a ++ c :: b ∧ c ∉ a ∧ split s [c] = a :: split b [c] := by
  induction s with
  | nil => left; exact ⟨by simp, split_single_of_not_mem c [] (by simp)⟩
  | cons x s ih =>
    by_cases hx : x = c
    · right
      exact ⟨[], s, by simp [hx], by simp, by
        have := split_single_append c [] s (by simp)
        simpa [hx] using this⟩
    · rcases ih with ⟨h1, _⟩ | ⟨a, b, h1, h2, _⟩
      · left
        have : c ∉ x :: s := by
          simp only [List.mem_cons, not_or]; exact ⟨fun h => hx h.symm, h1⟩
        exact ⟨this, split_single_of_not_mem c _ this⟩
      · right
        have : c ∉ x :: a := by
          simp only [List.mem_cons, not_or]; exact ⟨fun h => hx h.symm, h2⟩
        exact ⟨x :: a, b, by simp [h1], this, by
          rw [h1]; exact split_single_append c (x :: a) b this⟩

theorem split_single_ne_nil (c : Char) (s : Str) : split s [c] ≠ [] := by
  rcases split_single_cases c s with ⟨_, h⟩ | ⟨a, b, _, _, h⟩ <;> simp [h]

theorem firstSegment_append (a b : Str) (h : '/' ∉ a) : firstSegment (a ++ '/' :: b) = a := by
  induction a with
  | nil => simp [firstSegment]
  | cons x a ih =>
    simp only [List.mem_cons, not_or] at h
    have hx : (x != '/') = true := by simpa using fun e : x = '/' => h.1 e.symm
    have := ih h.2
    simp only [firstSegment, List.cons_append, List.takeWhile_cons, hx, if_true] at this ⊢
    rw [this]

theorem afterFirstSlash_append (a b : Str) (h : '/' ∉ a) :
    afterFirstSlash (a ++ '/' :: b) = b := by
  induction a with
  | nil => simp [afterFirstSlash]
  | cons x a ih =>
    simp only [List.mem_cons, not_or] at h
    have hx : (x != '/') = true := by simpa using fun e : x = '/' => h.1 e.symm
    have := ih h.2
    simp only [afterFirstSlash, List.cons_append, List.dropWhile_cons, hx, if_true] at this ⊢
    rw [this]

theorem replaceAll_quote_eq (s : Str) : replaceAll s ['"'] [] = withoutQuotes s := by
  induction s with
  | nil => simp [replaceAll, replaceAllAux, withoutQuotes]
  | cons x s ih =>
    have e : x :: s = [x] ++ s := rfl
    by_cases hx : x = '"'
    · subst hx
      rw [replaceAll_single_cons_self, ih]
      simp [withoutQuotes]
    · have h1 : '"' ∉ [x] := by simpa using fun h : '"' = x => hx h.symm
      have hb : (x != '"') = true := by simpa using hx
      rw [e, replaceAll_single_append, replaceAll_single_of_not_mem _ _ _ h1, ih]
      simp [withoutQuotes, List.filter_cons, hb]

/-- C8 (rewrite invariant): whenever `createImportStatement` returns no error,
the statement is `import {` + contractName + `} from "../lib/` + the first
segment of the import string without its double quotes + `/src/` + all that
follows the first slash of the import string, unchanged. -/
theorem rewrite_invariant (contractName importString : Str)
    (h : (createImportStatement contractName importString).2 = none) :
    (createImportStatement contractName importString).1
      = "import \x7b".toList ++ contractName ++ "\x7d from \"../lib/".toList
        ++ withoutQuotes (firstSegment importString) ++ "/src/".toList
        ++ afterFirstSlash importString := by
  have hs : "/".toList = ['/'] := rfl
  rcases split_single_cases '/' importString with ⟨_, h1⟩ | ⟨a, b, h1, h2, h3⟩
  · simp [createImportStatement, hs, h1] at h
  · have hfs : firstSegment importString = a := by
      rw [h1]; exact firstSegment_append a b h2
    have haf : afterFirstSlash importString = b := by
      rw [h1]; exact afterFirstSlash_append a b h2
    rcases split_single_cases '/' b with ⟨_, h4⟩ | ⟨a2, b2, h4, _, h6⟩
    · rw [h4] at h3
      unfold createImportStatement
      rw [hs, h3]
      simp [hfs, haf, replaceAll_quote_eq, libFolder]
    · rcases split_single_cases '/' b2 with ⟨_, h7⟩ | ⟨a3, b3, _, _, h9⟩
      · rw [h6, h7] at h3
        unfold createImportStatement
        rw [hs, h3]
        simp [hfs, haf, replaceAll_quote_eq, libFolder, h4]
      · exfalso
        rw [h6, h9] at h3
        rcases hb : split b3 ['/'] with _ | ⟨y, l⟩
        · exact split_single_ne_nil _ _ hb
        · simp [createImportStatement, hs, h3, hb] at h

theorem rewrite_invariant_witness :
    (createImportStatement "ERC20".toList "\"solmate/tokens/ERC20.sol\";".toList).1
      = "import \x7b".toList ++ "ERC20".toList ++ "\x7d from \"../lib/".toList
        ++ withoutQuotes (firstSegment "\"solmate/tokens/ERC20.sol\";".toList) ++ "/src/".toList
        ++ afterFirstSlash "\"solmate/tokens/ERC20.sol\";".toList :=
  rewrite_invariant "ERC20".toList "\"solmate/tokens/ERC20.sol\";".toList (by decide)

/-! ## Layouts of a braced import -/

theorem joinWith_cons (c : Char) (t : Str) (ts : List Str) (hne : ts ≠ []) :
    joinWith c (t :: ts) = t ++ c :: joinWith c ts := by
  cases ts with
  | nil => exact absurd rfl hne
  | cons t2 ts => rfl

theorem split_joinWith (c : Char) (ts : List Str) (hne : ts ≠ []) (h : ∀ t ∈ ts, c ∉ t) :
    split (joinWith c ts) [c] = ts := by
  induction ts with
  | nil => exact absurd rfl hne
  | cons t ts ih =>
    cases ts with
    | nil => exact split_single_of_not_mem c t (h t (by simp))
    | cons t2 ts =>
      rw [joinWith, split_single_append _ _ _ (h t (by simp)),
        ih (by simp) (fun u hu => h u (List.mem_cons_of_mem _ hu))]

theorem joinWith_replicate (c : Char) (k : Nat) (ts : List Str) (hne : ts ≠ []) :
    joinWith c (List.replicate k [] ++ ts) = List.replicate k c ++ joinWith c ts := by
  induction k with
  | zero => rfl
  | succ k ih =>
    have : List.replicate k ([] : Str) ++ ts ≠ [] := by simp [hne]
    rw [List.replicate_succ, List.cons_append, joinWith_cons _ _ _ this, ih]
    simp [List.replicate_succ]

theorem contains_of_hasPrefix_append (u v s : Str) (h : hasPrefix s (u ++ v) = true) :
    contains s v = true := by
  induction u generalizing s with
  | nil => exact contains_of_hasPrefix h
  | cons a u ih =>
    cases s with
    | nil => simp [hasPrefix] at h
    | cons c s =>
      simp only [List.cons_append, hasPrefix, Bool.and_eq_true] at h
      simp [contains, ih s h.2]

/-- Where a pattern occurs, each of its endings occurs. -/
theorem contains_of_contains_append (u v s : Str) (h : contains s (u ++ v) = true) :
    contains s v = true := by
  induction s with
  | nil =>
    rw [contains] at h
    exact contains_of_hasPrefix_append u v [] h
  | cons c s ih =>
    rw [contains, Bool.or_eq_true] at h
    rcases h with h | h
    · exact contains_of_hasPrefix_append u v _ h
    · simp [contains, ih h]

theorem contains_skip_of_head (a t v : Str) (d : Char) (ha : d ∉ a) :
    contains (a ++ t) (d :: v) = contains t (d :: v) := by
  induction a with
  | nil => rfl
  | cons c a ih =>
    simp only [List.mem_cons, not_or] at ha
    have : ¬ (c = d) := fun e => ha.1 e.symm
    simp [contains, hasPrefix, this, ih ha.2]

/-- A line whose only double quotes enclose a path that does not start with
`./` does not contain `from "./`. -/
theorem not_local_of_quoted (A P : Str) (hA : '"' ∉ A) (hP : '"' ∉ P)
    (hrel : hasPrefix P "./".toList = false) :
    contains (A ++ '"' :: (P ++ ['"'])) "from \"./".toList = false := by
  have e : "from \"./".toList = "from ".toList ++ "\"./".toList := rfl
  have h1 : contains (A ++ '"' :: (P ++ ['"'])) "\"./".toList = false := by
    have h2 : contains (P ++ ['"']) ('"' :: "./".toList) = false := by
      rw [contains_skip_of_head P ['"'] _ '"' hP]; decide
    have h3 : hasPrefix (P ++ ['"']) "./".toList = false :=
      hasPrefix_dotSlash_append P [] '"' hrel (by decide) (by decide)
    have e2 : "\"./".toList = '"' :: "./".toList := rfl
    rw [e2, contains_skip_of_head A _ _ '"' hA, contains, hasPrefix, h2, h3]
    rfl
  cases h : contains (A ++ '"' :: (P ++ ['"'])) "from \"./".toList with
  | false => rfl
  | true =>
    rw [e] at h
    rw [contains_of_contains_append _ _ _ h] at h1
    exact absurd h1 (by simp)

theorem layout_contains_import (ind s1 s2 s3 pad X P : Str) :
    contains (layout ind s1 s2 s3 pad X P) "import".toList = true := by
  have e : layout ind s1 s2 s3 pad X P = ind ++ ("import".toList ++ (s1 ++ "\x7b".toList
      ++ pad ++ X ++ pad ++ "\x7d".toList ++ s2 ++ "from".toList ++ s3 ++ "\"".toList ++ P
      ++ "\"".toList)) := by simp [layout]
  rw [e]
  exact contains_append_left ind (contains_of_hasPrefix (by simp [hasPrefix]))

theorem layout_contains_open (ind s1 s2 s3 pad X P : Str) :
    contains (layout ind s1 s2 s3 pad X P) "\x7b".toList = true := by
  have e : layout ind s1 s2 s3 pad X P = (ind ++ "import".toList ++ s1) ++ ("\x7b".toList
      ++ (pad ++ X ++ pad ++ "\x7d".toList ++ s2 ++ "from".toList ++ s3 ++ "\"".toList ++ P
      ++ "\"".toList)) := by simp [layout]
  rw [e]
  exact contains_append_left _ (contains_of_hasPrefix (by simp [hasPrefix]))

theorem layout_contains_close (ind s1 s2 s3 pad X P : Str) :
    contains (layout ind s1 s2 s3 pad X P) "\x7d".toList = true := by
  have e : layout ind s1 s2 s3 pad X P = (ind ++ "import".toList ++ s1 ++ "\x7b".toList
      ++ pad ++ X ++ pad) ++ ("\x7d".toList ++ (s2 ++ "from".toList ++ s3 ++ "\"".toList ++ P
      ++ "\"".toList)) := by simp [layout]
  rw [e]
  exact contains_append_left _ (contains_of_hasPrefix (by simp [hasPrefix]))

theorem layout_not_local (ind s1 s2 s3 pad X P : Str) (h0 : '"' ∉ ind) (h1 : '"' ∉ s1)
    (h2 : '"' ∉ s2) (h3 : '"' ∉ s3) (h4 : '"' ∉ pad) (hX : '"' ∉ X) (hP : '"' ∉ P)
    (hrel : hasPrefix P "./".toList = false) :
    contains (layout ind s1 s2 s3 pad X P) "from \"./".toList = false := by
  have e : layout ind s1 s2 s3 pad X P = (ind ++ "import".toList ++ s1 ++ "\x7b".toList
      ++ pad ++ X ++ pad ++ "\x7d".toList ++ s2 ++ "from".toList ++ s3)
      ++ '"' :: (P ++ ['"']) := by simp [layout]
  rw [e]
  exact not_local_of_quoted _ P (by simp [h0, h1, h2, h3, h4, hX]) hP hrel

/-- A line with `import` and both braces, and without `from "./`, goes to the
substitution. -/
theorem processLines_braced (line : Str) (rest : List Str)
    (h1 : contains line "import".toList = true) (h2 : contains line "from \"./".toList = false)
    (h3 : contains line "\x7b".toList = true) (h4 : contains line "\x7d".toList = true) :
    processLines (line :: rest) = substituteImport line (processLines rest) := by
  rw [processLines_cons, h1, h2, h3, h4]
  rfl

/-- A braced import in any layout goes to the substitution. -/
theorem processLines_layout (ind s1 s2 s3 pad X P : Str) (rest : List Str) (h0 : '"' ∉ ind)
    (h1 : '"' ∉ s1) (h2 : '"' ∉ s2) (h3 : '"' ∉ s3) (h4 : '"' ∉ pad) (hX : '"' ∉ X)
    (hP : '"' ∉ P) (hrel : hasPrefix P "./".toList = false) :
    processLines (layout ind s1 s2 s3 pad X P :: rest)
      = substituteImport (layout ind s1 s2 s3 pad X P) (processLines rest) :=
  processLines_braced _ rest (layout_contains_import ..) 
    (layout_not_local ind s1 s2 s3 pad X P h0 h1 h2 h3 h4 hX hP hrel)
    (layout_contains_open ..) (layout_contains_close ..)

theorem createImportStatement_of_no_slash (c s : Str) (h : '/' ∉ s) :
    createImportStatement c s = ([], some ("Invalid import string: ".toList ++ s)) := by
  have hs : "/".toList = ['/'] := rfl
  unfold createImportStatement
  rw [hs, split_single_of_not_mem _ _ h]
  rfl

theorem substituteImport_of_tokens (line : Str) (k : Run) (ts : List Str) (t1 t3 : Str)
    (hs : split line " ".toList = ts) (h1 : ts.get? 1 = some t1) (h3 : ts.get? 3 = some t3) :
    substituteImport line k
      = match createImportStatement
            (replaceAll (replaceAll t1 "\x7b".toList "".toList) "\x7d".toList "".toList) t3 with
        | (_, some err) => Run.stop (Status.fatal err)
        | (newImportStatement, none) => writeLine newImportStatement k := by
  unfold substituteImport
  simp only [hs, h1, h3]

theorem substituteImport_fatal (line : Str) (k : Run) (ts : List Str) (t1 t3 : Str)
    (hs : split line " ".toList = ts) (h1 : ts.get? 1 = some t1) (h3 : ts.get? 3 = some t3)
    (hno : '/' ∉ t3) :
    substituteImport line k = ⟨[], Status.fatal ("Invalid import string: ".toList ++ t3)⟩ := by
  rw [substituteImport_of_tokens line k ts t1 t3 hs h1 h3,
    createImportStatement_of_no_slash _ _ hno]
  rfl

theorem substituteImport_panic (line : Str) (k : Run) (ts : List Str)
    (hs : split line " ".toList = ts) (h3 : ts.get? 3 = none) :
    substituteImport line k = ⟨[], Status.indexOutOfRange⟩ := by
  unfold substituteImport
  simp only [hs, h3]
  cases ts.get? 1 <;> rfl

theorem split_tokens (line : Str) (ts : List Str) (he : line = joinWith ' ' ts) (hne : ts ≠ [])
    (h : ∀ t ∈ ts, ' ' ∉ t) : split line " ".toList = ts := by
  have hs : " ".toList = [' '] := rfl
  rw [he, hs, split_joinWith ' ' ts hne h]

/-- Indentation by `k ≥ 1` spaces: the fourth token has no slash. -/
theorem indented_fails (X P : Str) (k : Nat) (hk : 1 ≤ k) (hX : avoids X " /".toList)
    (hP : ' ' ∉ P) (r : Run) :
    ∃ tok, substituteImport
      (layout (List.replicate k ' ') " ".toList " ".toList " ".toList [] X P) r
        = ⟨[], Status.fatal ("Invalid import string: ".toList ++ tok)⟩ := by
  have hXs : ' ' ∉ X := fun h => hX _ h (by decide)
  have hXl : '/' ∉ X := fun h => hX _ h (by decide)
  have hs := split_tokens (layout (List.replicate k ' ') " ".toList " ".toList " ".toList [] X P)
    (List.replicate k [] ++ importTokens X P)
    (by rw [joinWith_replicate _ _ _ (by simp [importTokens])]; simp [layout, importTokens, joinWith])
    (by simp [importTokens])
    (by
      intro t ht
      simp only [importTokens, List.mem_append, List.mem_replicate, List.mem_cons,
        List.mem_singleton, List.not_mem_nil, or_false] at ht
      rcases ht with ⟨_, rfl⟩ | rfl | rfl | rfl | rfl <;> simp [hXs, hP])
  rcases k with _ | _ | _ | _ | k
  · omega
  · exact ⟨_, substituteImport_fatal _ r _ "import".toList "from".toList hs (by simp [importTokens])
      (by simp [importTokens]) (by decide)⟩
  · exact ⟨_, substituteImport_fatal _ r _ [] ("\x7b".toList ++ X ++ "\x7d".toList) hs
      (by simp [importTokens, List.replicate_succ])
      (by simp [importTokens, List.replicate_succ]) (by simp [hXl])⟩
  · exact ⟨_, substituteImport_fatal _ r _ [] "import".toList hs
      (by simp [importTokens, List.replicate_succ])
      (by simp [importTokens, List.replicate_succ]) (by decide)⟩
  · exact ⟨_, substituteImport_fatal _ r _ [] [] hs
      (by simp [importTokens, List.replicate_succ])
      (by simp [importTokens, List.replicate_succ]) (by simp)⟩

theorem importTokens_no_space (X P : Str) (hX : ' ' ∉ X) (hP : ' ' ∉ P) :
    ∀ t ∈ importTokens X P, ' ' ∉ t := by
  intro t ht
  simp only [importTokens, List.mem_cons, List.mem_singleton, List.not_mem_nil, or_false] at ht
  rcases ht with rfl | rfl | rfl | rfl <;> simp [hX, hP]

/-- Two or more spaces between `import` and the brace: the fourth token has no
slash. -/
theorem wide_first_fails (X P : Str) (m : Nat) (hm : 2 ≤ m) (hX : avoids X " /".toList)
    (hP : ' ' ∉ P) (r : Run) :
    ∃ tok, substituteImport
      (layout [] (List.replicate m ' ') " ".toList " ".toList [] X P) r
        = ⟨[], Status.fatal ("Invalid import string: ".toList ++ tok)⟩ := by
  have hXs : ' ' ∉ X := fun h => hX _ h (by decide)
  have hXl : '/' ∉ X := fun h => hX _ h (by decide)
  rcases m with _ | _ | j
  · omega
  · omega
  have hs := split_tokens (layout [] (List.replicate (j + 2) ' ') " ".toList " ".toList
      [] X P)
    ("import".toList :: (List.replicate (j + 1) [] ++ (importTokens X P).tail))
    (by
      rw [joinWith_cons _ _ _ (by simp), joinWith_replicate _ _ _ (by simp [importTokens])]
      simp [layout, importTokens, joinWith, List.replicate_succ])
    (by simp)
    (by
      intro t ht
      simp only [importTokens, List.tail_cons, List.mem_append, List.mem_replicate,
        List.mem_cons, List.mem_singleton, List.not_mem_nil, or_false] at ht
      rcases ht with rfl | ⟨_, rfl⟩ | rfl | rfl | rfl <;> simp [hXs, hP])
  rcases j with _ | _ | j
  · exact ⟨_, substituteImport_fatal _ r _ [] "from".toList hs
      (by simp [importTokens]) (by simp [importTokens]) (by decide)⟩
  · exact ⟨_, substituteImport_fatal _ r _ [] ("\x7b".toList ++ X ++ "\x7d".toList) hs
      (by simp [importTokens, List.replicate_succ])
      (by simp [importTokens, List.replicate_succ]) (by simp [hXl])⟩
  · exact ⟨_, substituteImport_fatal _ r _ [] [] hs
      (by simp [importTokens, List.replicate_succ])
      (by simp [importTokens, List.replicate_succ]) (by simp)⟩

/-- Two or more spaces between the brace and `from`: the fourth token has no
slash. -/
theorem wide_second_fails (X P : Str) (m : Nat) (hm : 2 ≤ m) (hX : ' ' ∉ X)
    (hP : ' ' ∉ P) (r : Run) :
    ∃ tok, substituteImport
      (layout [] " ".toList (List.replicate m ' ') " ".toList [] X P) r
        = ⟨[], Status.fatal ("Invalid import string: ".toList ++ tok)⟩ := by
  rcases m with _ | _ | j
  · omega
  · omega
  have hs := split_tokens (layout [] " ".toList (List.replicate (j + 2) ' ') " ".toList
      [] X P)
    ("import".toList :: ("\x7b".toList ++ X ++ "\x7d".toList)
      :: (List.replicate (j + 1) [] ++ (importTokens X P).tail.tail))
    (by
      rw [joinWith_cons _ _ _ (by simp), joinWith_cons _ _ _ (by simp),
        joinWith_replicate _ _ _ (by simp [importTokens])]
      simp [layout, importTokens, joinWith, List.replicate_succ])
    (by simp)
    (by
      intro t ht
      simp only [importTokens, List.tail_cons, List.mem_append, List.mem_replicate,
        List.mem_cons, List.mem_singleton, List.not_mem_nil, or_false] at ht
      rcases ht with rfl | rfl | ⟨_, rfl⟩ | rfl | rfl <;> simp [hX, hP])
  rcases j with _ | j
  · exact ⟨_, substituteImport_fatal _ r _ ("\x7b".toList ++ X ++ "\x7d".toList) "from".toList
      hs (by simp [importTokens]) (by simp [importTokens]) (by decide)⟩
  · exact ⟨_, substituteImport_fatal _ r _ ("\x7b".toList ++ X ++ "\x7d".toList) [] hs
      (by simp [importTokens, List.replicate_succ])
      (by simp [importTokens, List.replicate_succ]) (by simp)⟩

/-- Two or more spaces between `from` and the path: the fourth token is empty. -/
theorem wide_third_fails (X P : Str) (m : Nat) (hm : 2 ≤ m) (hX : ' ' ∉ X)
    (hP : ' ' ∉ P) (r : Run) :
    ∃ tok, substituteImport
      (layout [] " ".toList " ".toList (List.replicate m ' ') [] X P) r
        = ⟨[], Status.fatal ("Invalid import string: ".toList ++ tok)⟩ := by
  rcases m with _ | _ | j
  · omega
  · omega
  have hs := split_tokens (layout [] " ".toList " ".toList (List.replicate (j + 2) ' ')
      [] X P)
    ("import".toList :: ("\x7b".toList ++ X ++ "\x7d".toList) :: "from".toList
      :: (List.replicate (j + 1) [] ++ (importTokens X P).tail.tail.tail))
    (by
      rw [joinWith_cons _ _ _ (by simp), joinWith_cons _ _ _ (by simp),
        joinWith_cons _ _ _ (by simp), joinWith_replicate _ _ _ (by simp [importTokens])]
      simp [layout, importTokens, joinWith, List.replicate_succ])
    (by simp)
    (by
      intro t ht
      simp only [importTokens, List.tail_cons, List.mem_append, List.mem_replicate,
        List.mem_cons, List.mem_singleton, List.not_mem_nil, or_false] at ht
      rcases ht with rfl | rfl | rfl | ⟨_, rfl⟩ | rfl <;> simp [hX, hP])
  exact ⟨_, substituteImport_fatal _ r _ ("\x7b".toList ++ X ++ "\x7d".toList) [] hs
    (by simp [importTokens, List.replicate_succ])
    (by simp [importTokens, List.replicate_succ]) (by simp)⟩

/-- Spaces inside the braces: the fourth token is the closing brace. -/
theorem padded_fails (X P : Str) (hX : ' ' ∉ X) (hP : ' ' ∉ P) (r : Run) :
    substituteImport (layout [] " ".toList " ".toList " ".toList " ".toList X P) r
      = ⟨[], Status.fatal "Invalid import string: \x7d".toList⟩ := by
  have hs := split_tokens (layout [] " ".toList " ".toList " ".toList " ".toList X P)
    ["import".toList, "\x7b".toList, X, "\x7d".toList, "from".toList,
      "\"".toList ++ P ++ "\"".toList]
    (by simp [layout, joinWith]) (by simp)
    (by
      intro t ht
      simp only [List.mem_cons, List.mem_singleton, List.not_mem_nil, or_false] at ht
      rcases ht with rfl | rfl | rfl | rfl | rfl | rfl <;> simp [hX, hP])
  exact substituteImport_fatal _ r _ "\x7b".toList "\x7d".toList hs (by simp) (by simp)
    (by decide)

/-- Indentation by tabs: the four tokens after the first are those of the plain
layout. -/
theorem tab_indented_tokens (X P : Str) (k : Nat) (hX : ' ' ∉ X) (hP : ' ' ∉ P) :
    split (layout (List.replicate k '\t') " ".toList " ".toList " ".toList [] X P) " ".toList
      = (List.replicate k '\t' ++ "import".toList) :: (importTokens X P).tail := by
  refine split_tokens _ _ (by simp [layout, importTokens, joinWith]) (by simp) ?_
  intro t ht
  simp only [importTokens, List.tail_cons, List.mem_cons, List.mem_singleton,
    List.not_mem_nil, or_false] at ht
  rcases ht with rfl | rfl | rfl | rfl <;> simp [hX, hP, List.mem_replicate]

/-- C9 (a line that only mentions the word): the code line
`function importData() {`, followed by `    return 1;` and `}`, is not written
unchanged: the two following lines are merged into it, nothing is written and
the program stops with the error of `createImportStatement`.  The same happens
to the comment `// important: see {docs} for details`. -/
theorem mention_of_import_stops_the_run :
    processLines ["function importData() \x7b".toList, "    return 1;".toList, "\x7d".toList,
        "uint256 x;".toList]
        = ⟨[], Status.fatal "Invalid import string: 1;\x7d".toList⟩
      ∧ processLines ["// important: see \x7bdocs\x7d for details".toList, "uint256 x;".toList]
        = ⟨[], Status.fatal "Invalid import string: \x7bdocs\x7d".toList⟩ := by
  decide

/-- C10 as stated fails: four leading spaces, a doubled space, a tab in place of
a space, or spaces inside the braces each stop the program and nothing is
written, while the plain layout is rewritten. -/
theorem whitespace_robustness_counterexample :
    processLines ["import \x7bX\x7d from \"pkg/file\"".toList]
        = ⟨"import \x7bX\x7d from \"../lib/pkg/src/file\"\n".toList, Status.ok⟩
      ∧ processLines ["    import \x7bX\x7d from \"pkg/file\"".toList]
        = ⟨[], Status.fatal "Invalid import string: ".toList⟩
      ∧ processLines ["import  \x7bX\x7d from \"pkg/file\"".toList]
        = ⟨[], Status.fatal "Invalid import string: from".toList⟩
      ∧ processLines ["import\t\x7bX\x7d from \"pkg/file\"".toList]
        = ⟨[], Status.indexOutOfRange⟩
      ∧ processLines ["import \x7b X \x7d from \"pkg/file\"".toList]
        = ⟨[], Status.fatal "Invalid import string: \x7d".toList⟩ := by
  decide

/-- C10, amended: the statement is cut at every single space and its tokens are
read at fixed places.  For a symbol `X`, a package `pkg` and a file name `file`
without space, slash, double quote (and `X` without brace, `pkg` not starting
with a dot): the layout `import {X} from "pkg/file"` is rewritten to
`import {X} from "../lib/pkg/src/file"`, also when it is indented by tabs; with
`k ≥ 1` leading spaces, with `m ≥ 2` spaces in place of any one separating
space, or with the braces written `{ X }`, nothing is written and the program
stops with the error `Invalid import string: ` followed by a token without
slash. -/
theorem whitespace_layout (X pkg file : Str)
    (hX : avoids X " /\"\x7b\x7d".toList) (hpkg : avoids pkg " /\"".toList)
    (hdot : pkg.head? ≠ some '.') (hfile : avoids file " /\"".toList) :
    (∀ k : Nat, processLines [layout (List.replicate k '\t') " ".toList " ".toList " ".toList []
          X (pkg ++ "/".toList ++ file)]
        = ⟨rewritten X pkg file ++ "\n".toList, Status.ok⟩)
      ∧ (∀ k : Nat, 1 ≤ k → ∃ tok, processLines [layout (List.replicate k ' ') " ".toList
            " ".toList " ".toList [] X (pkg ++ "/".toList ++ file)]
          = ⟨[], Status.fatal ("Invalid import string: ".toList ++ tok)⟩)
      ∧ (∀ m : Nat, 2 ≤ m →
          (∃ tok, processLines [layout [] (List.replicate m ' ') " ".toList " ".toList []
              X (pkg ++ "/".toList ++ file)]
            = ⟨[], Status.fatal ("Invalid import string: ".toList ++ tok)⟩)
          ∧ (∃ tok, processLines [layout [] " ".toList (List.replicate m ' ') " ".toList []
              X (pkg ++ "/".toList ++ file)]
            = ⟨[], Status.fatal ("Invalid import string: ".toList ++ tok)⟩)
          ∧ (∃ tok, processLines [layout [] " ".toList " ".toList (List.replicate m ' ') []
              X (pkg ++ "/".toList ++ file)]
            = ⟨[], Status.fatal ("Invalid import string: ".toList ++ tok)⟩))
      ∧ processLines [layout [] " ".toList " ".toList " ".toList " ".toList
            X (pkg ++ "/".toList ++ file)]
          = ⟨[], Status.fatal "Invalid import string: \x7d".toList⟩ := by
  have hXs : ' ' ∉ X := fun h => hX _ h (by decide)
  have hXq : '"' ∉ X := fun h => hX _ h (by decide)
  have hXo : '\x7b' ∉ X := fun h => hX _ h (by decide)
  have hXc : '\x7d' ∉ X := fun h => hX _ h (by decide)
  have hX2 : avoids X " /".toList := fun c hc hm => hX c hc (by simp at hm ⊢; tauto)
  have hp1 : ' ' ∉ pkg := fun h => hpkg _ h (by decide)
  have hp2 : '"' ∉ pkg := fun h => hpkg _ h (by decide)
  have hf1 : ' ' ∉ file := fun h => hfile _ h (by decide)
  have hf2 : '"' ∉ file := fun h => hfile _ h (by decide)
  have hf3 : '/' ∉ file := fun h => hfile _ h (by decide)
  have hpkg2 : avoids pkg "/\"".toList := fun c hc hm => hpkg c hc (by simp at hm ⊢; tauto)
  have hPs : ' ' ∉ pkg ++ "/".toList ++ file := by simp [hp1, hf1]
  have hPq : '"' ∉ pkg ++ "/".toList ++ file := by simp [hp2, hf2]
  have hrel := hasPrefix_dotSlash_path pkg file hdot
  have hsp : '"' ∉ " ".toList := by decide
  have hnil : '"' ∉ ([] : Str) := by simp
  have hrep : ∀ (n : Nat) (c : Char), c ≠ '"' → '"' ∉ List.replicate n c := by
    intro n c hc h
    exact hc (List.eq_of_mem_replicate h).symm
  refine ⟨fun k => ?_, fun k hk => ?_, fun m hm => ⟨?_, ?_, ?_⟩, ?_⟩
  · rw [processLines_layout _ _ _ _ _ X _ [] (hrep k '\t' (by decide)) hsp hsp hsp hnil hXq hPq
        hrel,
      substituteImport_of_tokens _ _ _ ("\x7b".toList ++ X ++ "\x7d".toList)
        ("\"".toList ++ (pkg ++ "/".toList ++ file) ++ "\"".toList)
        (tab_indented_tokens X _ k hXs hPs) (by simp [importTokens]) (by simp [importTokens]),
      contractName_of_braced X hXo hXc, createImportStatement_two X pkg file hpkg2 hf3]
    exact writeLine_stop _
  · rw [processLines_layout _ _ _ _ _ X _ [] (hrep k ' ' (by decide)) hsp hsp hsp hnil hXq hPq
      hrel]
    exact indented_fails X _ k hk hX2 hPs _
  · rw [processLines_layout _ _ _ _ _ X _ [] hnil (hrep m ' ' (by decide)) hsp hsp hnil hXq hPq
      hrel]
    exact wide_first_fails X _ m hm hX2 hPs _
  · rw [processLines_layout _ _ _ _ _ X _ [] hnil hsp (hrep m ' ' (by decide)) hsp hnil hXq hPq
      hrel]
    exact wide_second_fails X _ m hm hXs hPs _
  · rw [processLines_layout _ _ _ _ _ X _ [] hnil hsp hsp (hrep m ' ' (by decide)) hnil hXq hPq
      hrel]
    exact wide_third_fails X _ m hm hXs hPs _
  · rw [processLines_layout _ _ _ _ _ X _ [] hnil hsp hsp hsp hsp hXq hPq hrel]
    exact padded_fails X _ hXs hPs _

theorem whitespace_layout_witness :
    processLines ["\timport \x7bERC20\x7d from \"solmate/ERC20.sol\"".toList]
        = ⟨"import \x7bERC20\x7d from \"../lib/solmate/src/ERC20.sol\"\n".toList, Status.ok⟩
      ∧ (∃ tok, processLines ["  import \x7bERC20\x7d from \"solmate/ERC20.sol\"".toList]
          = ⟨[], Status.fatal ("Invalid import string: ".toList ++ tok)⟩)
      ∧ processLines ["import \x7b ERC20 \x7d from \"solmate/ERC20.sol\"".toList]
          = ⟨[], Status.fatal "Invalid import string: \x7d".toList⟩ :=
  have h := whitespace_layout "ERC20".toList "solmate".toList "ERC20.sol".toList
    (by decide) (by decide) (by decide) (by decide)
  ⟨h.1 1, h.2.1 2 (by decide), h.2.2.2⟩

/-! ## Relative imports and short statements -/

/-- C11 (relative import on three lines): the path of the three-line import
`import {`, `    IOracle`, `} from "./interfaces/IOracle.sol";` is not kept: the
test for `from "./` is made on the first line alone, the merged statement is
substituted and its path becomes `../lib/./src/interfaces/IOracle.sol`. -/
theorem relative_multiline_is_rewritten :
    processLines ["import \x7b".toList, "    IOracle".toList,
        "\x7d from \"./interfaces/IOracle.sol\";".toList]
      = ⟨"import \x7bIOracle\x7d from \"../lib/./src/interfaces/IOracle.sol\";\n".toList,
          Status.ok⟩ := by
  decide

/-- C12 (parent-relative import): the line
`import {X} from "../interfaces/X.sol"` is not written unchanged: it does not
contain `from "./`, so it is substituted with `..` taken for the package, and
the line written is `import {X} from "../lib/../src/interfaces/X.sol"`. -/
theorem parent_relative_is_rewritten :
    processLines ["import \x7bX\x7d from \"../interfaces/X.sol\"".toList]
      = ⟨"import \x7bX\x7d from \"../lib/../src/interfaces/X.sol\"\n".toList, Status.ok⟩ := by
  decide

/-- C15 (token indexes): the line `import {X}` has two tokens and the unclosed
`import {` at the end of a file has two tokens after the merge, so in both
files the index expression `tokens[3]` is out of range and the program panics;
no error of `createImportStatement` is returned. -/
theorem short_import_index_out_of_range :
    processLines ["import \x7bX\x7d".toList] = ⟨[], Status.indexOutOfRange⟩
      ∧ processLines ["contract A \x7b\x7d".toList, "import \x7b".toList]
        = ⟨"contract A \x7b\x7d\n".toList, Status.indexOutOfRange⟩ := by
  decide

/-! ## Whole statements of a file -/

/-- The substitution either stops the program, whatever follows, or writes one
statement that depends on the logical statement alone. -/
theorem substituteImport_cases (s : Str) :
    (∃ st, st ≠ Status.ok ∧ ∀ k, substituteImport s k = Run.stop st)
      ∨ ∃ stmt, ∀ k, substituteImport s k = writeLine stmt k := by
  cases h1 : (split s " ".toList).get? 1 with
  | none =>
    refine Or.inl ⟨Status.indexOutOfRange, by simp, fun k => ?_⟩
    unfold substituteImport
    simp only [h1]
  | some t1 =>
    cases h3 : (split s " ".toList).get? 3 with
    | none =>
      refine Or.inl ⟨Status.indexOutOfRange, by simp, fun k => ?_⟩
      unfold substituteImport
      simp only [h1, h3]
    | some t3 =>
      rcases hc : createImportStatement
        (replaceAll (replaceAll t1 "\x7b".toList "".toList) "\x7d".toList "".toList) t3
        with ⟨st, _ | err⟩
      · refine Or.inr ⟨st, fun k => ?_⟩
        rw [substituteImport_of_tokens s k _ t1 t3 rfl h1 h3, hc]
      · refine Or.inl ⟨Status.fatal err, by simp, fun k => ?_⟩
        rw [substituteImport_of_tokens s k _ t1 t3 rfl h1 h3, hc]

theorem writeLine_status (s : Str) (k : Run) : (writeLine s k).status = k.status := rfl

theorem writeLine_out (s : Str) (k : Run) :
    (writeLine s k).out = s ++ "\n".toList ++ k.out := rfl

theorem wholeStatements_cons (line : Str) (rest : List Str) :
    wholeStatements (line :: rest)
      = if !contains line "import".toList then wholeStatements rest
        else if contains line "from \"./".toList then wholeStatements rest
        else if !contains line "\x7b".toList then wholeStatements rest
        else if !contains line "\x7d".toList then
          match rest with
          | [] => false
          | [_] => false
          | _ :: _ :: rest2 => wholeStatements rest2
        else wholeStatements rest := by
  rw [wholeStatements.eq_def]

/-- Whole statements processed without error, followed by other lines: the text
written is that of the statements, then the run of the other lines. -/
theorem processLines_append (n : Nat) (pre : List Str) (hn : pre.length ≤ n)
    (hw : wholeStatements pre = true) (hok : (processLines pre).status = Status.ok)
    (rest : List Str) :
    processLines (pre ++ rest)
      = ⟨(processLines pre).out ++ (processLines rest).out, (processLines rest).status⟩ := by
  induction n generalizing pre with
  | zero =>
    have : pre = [] := List.length_eq_zero.1 (Nat.le_zero.1 hn)
    subst this
    simp [processLines, Run.stop]
  | succ n ih =>
    cases pre with
    | nil => simp [processLines, Run.stop]
    | cons line tl =>
      have hlen : tl.length ≤ n := by simpa using hn
      have pass : processLines (line :: tl) = writeLine line (processLines tl) →
          wholeStatements tl = true →
          processLines (line :: (tl ++ rest)) = writeLine line (processLines (tl ++ rest)) →
          processLines (line :: tl ++ rest)
            = ⟨(processLines (line :: tl)).out ++ (processLines rest).out,
                (processLines rest).status⟩ := by
        intro h1 h2 h3
        have hok2 : (processLines tl).status = Status.ok := by
          rw [h1] at hok; exact hok
        rw [List.cons_append, h3, ih tl hlen h2 hok2, h1]
        simp [writeLine]
      have subst : ∀ (s : Str) (tl2 : List Str), tl2.length ≤ n →
          processLines (line :: tl) = substituteImport s (processLines tl2) →
          wholeStatements tl2 = true →
          processLines (line :: tl ++ rest) = substituteImport s (processLines (tl2 ++ rest)) →
          processLines (line :: tl ++ rest)
            = ⟨(processLines (line :: tl)).out ++ (processLines rest).out,
                (processLines rest).status⟩ := by
        intro s tl2 hl2 h1 h2 h3
        rcases substituteImport_cases s with ⟨st, hst, hs⟩ | ⟨stmt, hs⟩
        · rw [h1, hs] at hok
          exact absurd hok hst
        · have hok2 : (processLines tl2).status = Status.ok := by
            rw [h1, hs] at hok; exact hok
          rw [h3, hs, ih tl2 hl2 h2 hok2, h1, hs]
          simp [writeLine]
      rw [wholeStatements_cons] at hw
      have e1 := processLines_cons line tl
      have e2 := processLines_cons line (tl ++ rest)
      cases c1 : contains line "import".toList
      · simp only [c1, Bool.not_false, if_true] at hw e1 e2
        exact pass e1 hw e2
      cases c2 : contains line "from \"./".toList
      swap
      · simp only [c1, c2, Bool.not_true, Bool.false_eq_true, if_false, if_true] at hw e1 e2
        exact pass e1 hw e2
      cases c3 : contains line "\x7b".toList
      · simp only [c1, c2, c3, Bool.not_true, Bool.not_false, Bool.false_eq_true, if_false,
          if_true] at hw e1 e2
        exact pass e1 hw e2
      cases c4 : contains line "\x7d".toList
      · simp only [c1, c2, c3, c4, Bool.not_true, Bool.not_false, Bool.false_eq_true, if_false,
          if_true] at hw e1 e2
        rcases tl with _ | ⟨l2, _ | ⟨l3, tl2⟩⟩
        · simp at hw
        · simp at hw
        · simp only [List.cons_append] at e2
          exact subst _ tl2 (by simp at hlen; omega) e1 hw e2
      · simp only [c1, c2, c3, c4, Bool.not_true, Bool.false_eq_true, if_false] at hw e1 e2
        exact subst _ tl hlen e1 hw e2

theorem splitAux_single_length (c : Char) (s cur : Str) :
    (splitAux [c] 0 s cur).length = s.count c + 1 := by
  induction s generalizing cur with
  | nil => simp [splitAux]
  | cons a s ih =>
    by_cases h : a = c
    · simp [splitAux, hasPrefix, hasPrefix_nil, h, ih]
    · simp [splitAux, hasPrefix, h, ih, List.count_cons]

theorem split_single_length (c : Char) (s : Str) :
    (split s [c]).length = s.count c + 1 := by
  simp [split, splitAux_single_length]

theorem split_quoted_length (P : Str) :
    (split ("\"".toList ++ P ++ "\"".toList) "/".toList).length
      = (split P "/".toList).length := by
  have hs : "/".toList = ['/'] := rfl
  rw [hs, split_single_length, split_single_length]
  simp [List.count_cons, List.count_append]

theorem createImportStatement_of_length (c s : Str)
    (h : (split s "/".toList).length < 2 ∨ 3 < (split s "/".toList).length) :
    createImportStatement c s = ([], some ("Invalid import string: ".toList ++ s)) := by
  have e : "/".toList = ['/'] := rfl
  unfold createImportStatement
  rw [e] at h ⊢
  rcases hs : split s ['/'] with _ | ⟨a, _ | ⟨b, _ | ⟨d, _ | ⟨e, l⟩⟩⟩⟩ <;>
    simp [hs, invalidImportString] at h ⊢

/-- C18 (order and number of lines): when every line of a file lacks `import`,
or contains `from "./`, or lacks an opening brace, the text written is the lines
of the file in their order, each followed by one newline, and no error is
raised. -/
theorem passthrough_file (lines : List Str)
    (h : ∀ l ∈ lines, contains l "import".toList = false
      ∨ contains l "from \"./".toList = true ∨ contains l "\x7b".toList = false) :
    processLines lines = ⟨lines.flatMap (fun l => l ++ "\n".toList), Status.ok⟩ := by
  induction lines with
  | nil => rfl
  | cons l ls ih =>
    have hl := h l (by simp)
    have step : processLines (l :: ls) = writeLine l (processLines ls) := by
      rw [processLines_cons]
      rcases hl with h1 | h2 | h3
      · rw [h1]; rfl
      · rw [h2]; cases contains l "import".toList <;> rfl
      · rw [h3]
        cases contains l "import".toList <;> cases contains l "from \"./".toList <;> rfl
    rw [step, ih (fun x hx => h x (List.mem_cons_of_mem _ hx))]
    simp [writeLine]

theorem passthrough_file_witness :
    processLines ["// SPDX-License-Identifier: MIT".toList,
        "import \x7bIOracle\x7d from \"./interfaces/IOracle.sol\";".toList,
        "import \"solmate/tokens/ERC20.sol\";".toList, "".toList]
      = ⟨"// SPDX-License-Identifier: MIT\nimport \x7bIOracle\x7d from \"./interfaces/IOracle.sol\";\nimport \"solmate/tokens/ERC20.sol\";\n\n".toList,
          Status.ok⟩ :=
  passthrough_file ["// SPDX-License-Identifier: MIT".toList,
      "import \x7bIOracle\x7d from \"./interfaces/IOracle.sol\";".toList,
      "import \"solmate/tokens/ERC20.sol\";".toList, "".toList] (by decide)

/-- C13 (fail fast): in a file made of whole statements processed without
error, then the line `import {X} from "P"` whose path `P` has one segment or at
least four (and is not relative), then any lines: the program stops with the
error `Invalid import string: "P"`, the text written is exactly that of the
statements before the import, nothing is written for the import and the lines
after it have no effect. -/
theorem fail_fast_on_bad_path (pre post : List Str) (X P : Str)
    (hw : wholeStatements pre = true) (hok : (processLines pre).status = Status.ok)
    (hX : avoids X " \x7b\x7d".toList) (hP : ' ' ∉ P)
    (hrel : hasPrefix P "./".toList = false)
    (hseg : (split P "/".toList).length = 1 ∨ 4 ≤ (split P "/".toList).length) :
    processLines (pre ++ importLine X P :: post)
      = ⟨(processLines pre).out,
          Status.fatal ("Invalid import string: ".toList ++ ("\"".toList ++ P ++ "\"".toList))⟩ := by
  have hXs : ' ' ∉ X := fun h => hX _ h (by decide)
  have hlen : (split ("\"".toList ++ P ++ "\"".toList) "/".toList).length < 2
      ∨ 3 < (split ("\"".toList ++ P ++ "\"".toList) "/".toList).length := by
    rw [split_quoted_length]; omega
  rw [processLines_append pre.length pre (Nat.le_refl _) hw hok,
    processLines_importLine X P post hXs hP hrel, substituteImport_importLine X P _ hX hP,
    createImportStatement_of_length X _ hlen]
  simp [Run.stop]

theorem fail_fast_on_bad_path_witness :
    processLines (["pragma solidity 0.8.10;".toList, "import \x7b".toList, "    ERC20".toList,
        "\x7d from \"solmate/ERC20.sol\";".toList]
        ++ importLine "Oracle".toList "a/b/c/Oracle.sol".toList
          :: ["contract Reserve \x7b\x7d".toList])
      = ⟨(processLines ["pragma solidity 0.8.10;".toList, "import \x7b".toList,
            "    ERC20".toList, "\x7d from \"solmate/ERC20.sol\";".toList]).out,
          Status.fatal ("Invalid import string: ".toList
            ++ ("\"".toList ++ "a/b/c/Oracle.sol".toList ++ "\"".toList))⟩ :=
  fail_fast_on_bad_path _ _ "Oracle".toList "a/b/c/Oracle.sol".toList (by decide) (by decide)
    (by decide) (by decide) (by decide) (by decide)

/-! ## The characters of the segments -/

theorem splitAux_single_mem (c : Char) (s cur t : Str) (ht : t ∈ splitAux [c] 0 s cur) :
    (∀ x ∈ t, x ∈ cur ∨ x ∈ s) ∧ (c ∉ cur → c ∉ t) := by
  induction s generalizing cur with
  | nil =>
    simp only [splitAux, List.mem_singleton] at ht
    subst ht
    exact ⟨fun x hx => Or.inl hx, fun h => h⟩
  | cons a s ih =>
    by_cases h : a = c
    · simp only [splitAux, hasPrefix, h, beq_self_eq_true, hasPrefix_nil, Bool.and_true,
        if_true, List.length_singleton, Nat.sub_self, List.mem_cons] at ht
      rcases ht with rfl | ht
      · exact ⟨fun x hx => Or.inl hx, fun h => h⟩
      · have := ih [] ht
        refine ⟨fun x hx => ?_, fun _ => this.2 (by simp)⟩
        rcases this.1 x hx with h1 | h1
        · simp at h1
        · exact Or.inr (List.mem_cons_of_mem _ h1)
    · have hb : (a == c) = false := by simpa using h
      simp only [splitAux, hasPrefix, hb, Bool.false_and, Bool.false_eq_true, if_false] at ht
      have := ih (cur ++ [a]) ht
      refine ⟨fun x hx => ?_, fun hc => this.2 ?_⟩
      · rcases this.1 x hx with h1 | h1
        · rcases List.mem_append.1 h1 with h2 | h2
          · exact Or.inl h2
          · exact Or.inr (by simp at h2; simp [h2])
        · exact Or.inr (List.mem_cons_of_mem _ h1)
      · simp only [List.mem_append, List.mem_singleton, not_or]
        exact ⟨hc, fun e => h e.symm⟩

/-- The characters of a segment are characters of the string that was cut. -/
theorem split_single_mem_subset (c : Char) (s t : Str) (ht : t ∈ split s [c]) :
    ∀ x ∈ t, x ∈ s := by
  intro x hx
  have : t ∈ splitAux [c] 0 s [] := by simpa [split] using ht
  rcases (splitAux_single_mem c s [] t this).1 x hx with h | h
  · simp at h
  · exact h

/-- A segment does not contain the separator. -/
theorem split_single_mem_no_sep (c : Char) (s t : Str) (ht : t ∈ split s [c]) : c ∉ t := by
  have : t ∈ splitAux [c] 0 s [] := by simpa [split] using ht
  exact (splitAux_single_mem c s [] t this).2 (by simp)

theorem replaceAll_single_nil (c : Char) (s : Str) :
    replaceAll s [c] [] = s.filter (fun x => x != c) := by
  induction s with
  | nil => simp [replaceAll, replaceAllAux]
  | cons x s ih =>
    have e : x :: s = [x] ++ s := rfl
    by_cases hx : x = c
    · subst hx
      rw [replaceAll_single_cons_self, ih]
      simp
    · have h1 : c ∉ [x] := by simpa using fun h : c = x => hx h.symm
      have hb : (x != c) = true := by simpa using hx
      rw [e, replaceAll_single_append, replaceAll_single_of_not_mem _ _ _ h1, ih]
      simp [List.filter_cons, hb]

theorem replaceAll_single_nil_mem (c : Char) (s : Str) (x : Char)
    (hx : x ∈ replaceAll s [c] []) : x ∈ s ∧ x ≠ c := by
  rw [replaceAll_single_nil] at hx
  simpa using hx

/-- The characters of the statement built by `createImportStatement` are those
of its fixed parts, of the contract name and of the import string. -/
theorem createImportStatement_mem (cn imp : Str) (x : Char)
    (hx : x ∈ (createImportStatement cn imp).1) :
    x ∈ "import \x7b\x7d from \"../lib/src/".toList ∨ x ∈ cn ∨ x ∈ imp := by
  have e : "/".toList = ['/'] := rfl
  have hsub := split_single_mem_subset '/' imp
  have key : ∀ lit : Str, (∀ y ∈ lit, y ∈ "import \x7b\x7d from \"../lib/src/".toList) →
      x ∈ lit → x ∈ "import \x7b\x7d from \"../lib/src/".toList := fun _ hl h => hl x h
  unfold createImportStatement at hx
  rw [e] at hx
  rcases hs : split imp ['/'] with _ | ⟨a, _ | ⟨b, _ | ⟨d, _ | ⟨e, l⟩⟩⟩⟩
  · simp [hs] at hx
  · simp [hs] at hx
  · rw [hs] at hsub hx
    simp only [libFolder, List.mem_append] at hx
    rcases hx with (((h | h) | h) | h) | (((((h | h) | h) | h) | h) | h)
    · exact Or.inl (key _ (by decide) h)
    · right; left; exact h
    · exact Or.inl (key _ (by decide) h)
    · exact Or.inl (key _ (by decide) h)
    · exact Or.inl (key _ (by decide) h)
    · exact Or.inl (key _ (by decide) h)
    · exact Or.inl (key _ (by decide) h)
    · right; right
      exact hsub a (by simp) x (replaceAll_single_nil_mem _ _ _ h).1
    · exact Or.inl (key _ (by decide) h)
    · right; right; exact hsub b (by simp) x h
  · rw [hs] at hsub hx
    simp only [libFolder, List.mem_append] at hx
    rcases hx with (((h | h) | h) | h) | (((((h | h) | h) | h) | h) | ((h | h) | h))
    · exact Or.inl (key _ (by decide) h)
    · right; left; exact h
    · exact Or.inl (key _ (by decide) h)
    · exact Or.inl (key _ (by decide) h)
    · exact Or.inl (key _ (by decide) h)
    · exact Or.inl (key _ (by decide) h)
    · exact Or.inl (key _ (by decide) h)
    · right; right
      exact hsub a (by simp) x (replaceAll_single_nil_mem _ _ _ h).1
    · exact Or.inl (key _ (by decide) h)
    · right; right; exact hsub b (by simp) x h
    · exact Or.inl (key _ (by decide) h)
    · right; right; exact hsub d (by simp) x h
  · simp [hs] at hx

/-- When the substitution of the statement `s` writes `stmt`, the statement has
a second and a fourth token and `createImportStatement` returns `stmt` for
them. -/
theorem substituteImport_writes (s stmt : Str)
    (h : substituteImport s (Run.stop Status.ok) = ⟨stmt ++ "\n".toList, Status.ok⟩) :
    ∃ t1 t3, (split s " ".toList).get? 1 = some t1 ∧ (split s " ".toList).get? 3 = some t3
      ∧ createImportStatement
          (replaceAll (replaceAll t1 "\x7b".toList "".toList) "\x7d".toList "".toList) t3
        = (stmt, none) := by
  cases h1 : (split s " ".toList).get? 1 with
  | none =>
    unfold substituteImport at h
    simp only [h1, Run.stop, Run.mk.injEq] at h
    exact absurd h.2 (by simp)
  | some t1 =>
    cases h3 : (split s " ".toList).get? 3 with
    | none =>
      unfold substituteImport at h
      simp only [h1, h3, Run.stop, Run.mk.injEq] at h
      exact absurd h.2 (by simp)
    | some t3 =>
      refine ⟨t1, t3, rfl, rfl, ?_⟩
      rw [substituteImport_of_tokens s _ _ t1 t3 rfl h1 h3] at h
      rcases hc : createImportStatement
        (replaceAll (replaceAll t1 "\x7b".toList "".toList) "\x7d".toList "".toList) t3
        with ⟨st, _ | err⟩
      · rw [hc] at h
        simp only [writeLine, Run.stop, List.append_nil, Run.mk.injEq, and_true] at h
        rw [List.append_cancel_right h]
      · rw [hc] at h
        simp [Run.stop] at h

theorem substituteImport_stmt_no_newline (s stmt : Str) (hs : '\n' ∉ s)
    (h : substituteImport s (Run.stop Status.ok) = ⟨stmt ++ "\n".toList, Status.ok⟩) :
    '\n' ∉ stmt := by
  obtain ⟨t1, t3, h1, h3, hc⟩ := substituteImport_writes s stmt h
  have e : " ".toList = [' '] := rfl
  have eo : "\x7b".toList = ['\x7b'] := rfl
  have ec : "\x7d".toList = ['\x7d'] := rfl
  have en : "".toList = ([] : Str) := rfl
  rw [e] at h1 h3
  rw [eo, ec, en] at hc
  intro hx
  have hx2 : '\n' ∈ (createImportStatement
      (replaceAll (replaceAll t1 ['\x7b'] []) ['\x7d'] []) t3).1 := by rw [hc]; exact hx
  rcases createImportStatement_mem _ _ _ hx2 with h | h | h
  · exact absurd h (by decide)
  · have := (replaceAll_single_nil_mem _ _ _ (replaceAll_single_nil_mem _ _ _ h).1).1
    exact hs (split_single_mem_subset ' ' s t1 (List.get?_mem h1) _ this)
  · exact hs (split_single_mem_subset ' ' s t3 (List.get?_mem h3) _ h)

theorem trim_mem (s cutset : Str) (x : Char) (hx : x ∈ trim s cutset) : x ∈ s := by
  unfold trim trimRight trimLeft at hx
  have h1 := List.mem_reverse.1 hx
  have h2 := (List.dropWhile_sublist _).subset h1
  have h3 := List.mem_reverse.1 h2
  exact (List.dropWhile_sublist _).subset h3

/-- C16 (two-line lookahead): when the line `l1` contains `import` and an
opening brace, no closing brace and no `from "./`, the two lines `l2` and `l3`
that follow are taken with it: the run is the substitution of the one statement
`l1` + (`l2` without its leading and trailing spaces) + `l3`, followed by the
run of the remaining lines on their own.  Either the substitution stops the
program and nothing is written, or one line without newline inside, computed
from that statement alone, is written with its newline, followed by exactly
what the remaining lines write; `l2` and `l3` are not written. -/
theorem two_line_lookahead (l1 l2 l3 : Str) (rest : List Str)
    (h1 : contains l1 "import".toList = true) (h2 : contains l1 "\x7b".toList = true)
    (h3 : contains l1 "\x7d".toList = false) (h4 : contains l1 "from \"./".toList = false)
    (hn1 : '\n' ∉ l1) (hn2 : '\n' ∉ l2) (hn3 : '\n' ∉ l3) :
    processLines (l1 :: l2 :: l3 :: rest)
        = substituteImport (l1 ++ trim l2 " ".toList ++ l3) (processLines rest)
      ∧ ((∃ st, st ≠ Status.ok ∧ processLines (l1 :: l2 :: l3 :: rest) = ⟨[], st⟩)
        ∨ ∃ stmt, '\n' ∉ stmt
          ∧ substituteImport (l1 ++ trim l2 " ".toList ++ l3) (Run.stop Status.ok)
            = ⟨stmt ++ "\n".toList, Status.ok⟩
          ∧ processLines (l1 :: l2 :: l3 :: rest)
            = ⟨stmt ++ "\n".toList ++ (processLines rest).out, (processLines rest).status⟩) := by
  have ht : '\n' ∉ trim l2 " ".toList := fun h => hn2 (trim_mem _ _ _ h)
  have en : "\n".toList = ['\n'] := rfl
  have hm : concatLines l1 (trim l2 " ".toList) l3 = l1 ++ trim l2 " ".toList ++ l3 := by
    rw [concatLines, en, replaceAll_single_of_not_mem _ _ _ ht,
      replaceAll_single_of_not_mem _ _ _ hn3]
  have key : processLines (l1 :: l2 :: l3 :: rest)
      = substituteImport (l1 ++ trim l2 " ".toList ++ l3) (processLines rest) := by
    rw [processLines_cons, h1, h2, h3, h4]
    simp only [Bool.not_true, Bool.not_false, Bool.false_eq_true, if_false, if_true, hm]
  refine ⟨key, ?_⟩
  have hmn : '\n' ∉ l1 ++ trim l2 " ".toList ++ l3 := by
    simp only [List.mem_append, not_or]
    exact ⟨⟨hn1, ht⟩, hn3⟩
  rcases substituteImport_cases (l1 ++ trim l2 " ".toList ++ l3) with ⟨st, hst, hs⟩ | ⟨stmt, hs⟩
  · exact Or.inl ⟨st, hst, by rw [key, hs]; rfl⟩
  · have hw : substituteImport (l1 ++ trim l2 " ".toList ++ l3) (Run.stop Status.ok)
        = ⟨stmt ++ "\n".toList, Status.ok⟩ := by
      rw [hs]; exact writeLine_stop stmt
    exact Or.inr ⟨stmt, substituteImport_stmt_no_newline _ stmt hmn hw, hw, by rw [key, hs]; rfl⟩

theorem two_line_lookahead_witness :
    processLines ["import \x7b".toList, "  ERC20  ".toList,
          "\x7d from \"solmate/ERC20.sol\";".toList, "contract A \x7b\x7d".toList]
        = substituteImport ("import \x7b".toList ++ trim "  ERC20  ".toList " ".toList
            ++ "\x7d from \"solmate/ERC20.sol\";".toList)
          (processLines ["contract A \x7b\x7d".toList])
      ∧ processLines ["import \x7b".toList, "  ERC20  ".toList,
          "\x7d from \"solmate/ERC20.sol\";".toList, "contract A \x7b\x7d".toList]
        = ⟨"import \x7bERC20\x7d from \"../lib/solmate/src/ERC20.sol\";\ncontract A \x7b\x7d\n".toList,
            Status.ok⟩ :=
  ⟨(two_line_lookahead "import \x7b".toList "  ERC20  ".toList
      "\x7d from \"solmate/ERC20.sol\";".toList ["contract A \x7b\x7d".toList]
      (by decide) (by decide) (by decide) (by decide) (by decide) (by decide) (by decide)).1,
    by decide⟩

/-! ## The directory loop and the indentation of the symbol line -/

/-- C17 as stated fails: with a tab before the symbol the tab stays in the
symbol and the line written is `import {<tab>X} from "../lib/pkg/src/file"`. -/
theorem tab_indentation_counterexample :
    processLines ["import \x7b".toList, "\tX".toList, "\x7d from \"pkg/file\"".toList]
      = ⟨"import \x7b\tX\x7d from \"../lib/pkg/src/file\"\n".toList, Status.ok⟩ := by
  decide

/-- The three lines `import {`, `n` spaces then `Y`, `} from "P"` are merged
into the statement `import {Y} from "P"`, which is substituted. -/
theorem processLines_three_lines (Y P : Str) (n : Nat) (hY : avoids Y " \n".toList)
    (hP : '\n' ∉ P) (rest : List Str) :
    processLines ("import \x7b".toList :: (List.replicate n ' ' ++ Y)
        :: ("\x7d from \"".toList ++ P ++ "\"".toList) :: rest)
      = substituteImport (importLine Y P) (processLines rest) := by
  have hYs : ' ' ∉ Y := fun h => hY _ h (by decide)
  have hYn : '\n' ∉ Y := fun h => hY _ h (by decide)
  have hPn : '\n' ∉ "\x7d from \"".toList ++ P ++ "\"".toList := by simpa using hP
  have h1 : contains "import \x7b".toList "import".toList = true := by decide
  have h2 : contains "import \x7b".toList "from \"./".toList = false := by decide
  have h3 : contains "import \x7b".toList "\x7b".toList = true := by decide
  have h4 : contains "import \x7b".toList "\x7d".toList = false := by decide
  have hn : "\n".toList = ['\n'] := rfl
  have hm : concatLines "import \x7b".toList (trim (List.replicate n ' ' ++ Y) " ".toList)
      ("\x7d from \"".toList ++ P ++ "\"".toList) = importLine Y P := by
    rw [trim_spaces n Y hYs, concatLines, hn, replaceAll_single_of_not_mem _ _ _ hYn,
      replaceAll_single_of_not_mem _ _ _ hPn]
    simp [importLine]
  rw [processLines_cons, h1, h2, h3, h4]
  simp only [Bool.not_true, Bool.not_false, Bool.false_eq_true, if_false, if_true, hm]

/-- C17, amended: the merge removes the spaces, and only the spaces, at both
ends of the symbol line.  For the three lines `import {`, then `n` spaces, `m`
tabs and `X`, then `} from "pkg/file"`, the symbol extracted is the `m` tabs
followed by `X` and the line written is
`import {<m tabs>X} from "../lib/pkg/src/file"`; it is the line of `X` alone
when the indentation has no tab (`m = 0`). -/
theorem merge_trims_spaces_only (X pkg file : Str) (n m : Nat)
    (hX : avoids X " \x7b\x7d\n".toList) (hpkg : avoids pkg " /\"\n".toList)
    (hfile : avoids file " /\n".toList) :
    processLines ["import \x7b".toList,
        List.replicate n ' ' ++ List.replicate m '\t' ++ X,
        "\x7d from \"".toList ++ (pkg ++ "/".toList ++ file) ++ "\"".toList]
      = ⟨rewritten (List.replicate m '\t' ++ X) pkg file ++ "\n".toList, Status.ok⟩ := by
  have hY : ∀ cs : Str, '\t' ∉ cs → avoids X cs → avoids (List.replicate m '\t' ++ X) cs := by
    intro cs ht hx c hc
    rcases List.mem_append.1 hc with h | h
    · rw [List.eq_of_mem_replicate h]; exact ht
    · exact hx c h
  have hX1 : avoids X " \n".toList := fun c hc hm => hX c hc (by simp at hm ⊢; tauto)
  have hX2 : avoids X " \x7b\x7d".toList := fun c hc hm => hX c hc (by simp at hm ⊢; tauto)
  have hY1 := hY " \n".toList (by decide) hX1
  have hY2 := hY " \x7b\x7d".toList (by decide) hX2
  have hp1 : ' ' ∉ pkg := fun h => hpkg _ h (by decide)
  have hp2 : '\n' ∉ pkg := fun h => hpkg _ h (by decide)
  have hf1 : ' ' ∉ file := fun h => hfile _ h (by decide)
  have hf2 : '\n' ∉ file := fun h => hfile _ h (by decide)
  have hf3 : '/' ∉ file := fun h => hfile _ h (by decide)
  have hpkg2 : avoids pkg "/\"".toList := fun c hc hm => hpkg c hc (by simp at hm ⊢; tauto)
  have hPs : ' ' ∉ pkg ++ "/".toList ++ file := by simp [hp1, hf1]
  have hPn : '\n' ∉ pkg ++ "/".toList ++ file := by simp [hp2, hf2]
  rw [List.append_assoc, processLines_three_lines _ _ n hY1 hPn [],
    substituteImport_importLine _ _ _ hY2 hPs, createImportStatement_two _ pkg file hpkg2 hf3]
  exact writeLine_stop _

theorem merge_trims_spaces_only_witness :
    processLines ["import \x7b".toList, "  \t\tERC20".toList,
        "\x7d from \"solmate/ERC20.sol\"".toList]
      = ⟨"import \x7b\t\tERC20\x7d from \"../lib/solmate/src/ERC20.sol\"\n".toList, Status.ok⟩ :=
  merge_trims_spaces_only "ERC20".toList "solmate".toList "ERC20.sol".toList 2 2
    (by decide) (by decide) (by decide)

/-! ## The line written, given back to the program -/

theorem bracedImport_contains_import (X T : Str) :
    contains (bracedImport X T) "import".toList = true := by
  simp [bracedImport, contains, hasPrefix]

theorem bracedImport_contains_open (X T : Str) :
    contains (bracedImport X T) "\x7b".toList = true := by
  simp [bracedImport, contains, hasPrefix]

theorem bracedImport_contains_close (X T : Str) :
    contains (bracedImport X T) "\x7d".toList = true := by
  have h : contains ("\x7d from ".toList ++ T) "\x7d".toList = true := by
    simp [contains, hasPrefix]
  have := contains_append_left ("import \x7b".toList ++ X) h
  simpa [bracedImport] using this

theorem bracedImport_not_local (X T : Str) (hX : ' ' ∉ X) (hT : ' ' ∉ T)
    (hrel : hasPrefix T "\"./".toList = false) :
    contains (bracedImport X T) "from \"./".toList = false := by
  have h1 := contains_skip_of_stop "from".toList "\"./".toList X
    (" from ".toList ++ T) ' ' '\x7d' hX (by decide) (by decide)
  have h2 : contains T "from \"./".toList = false :=
    contains_false_of_not_mem (d := ' ') (by decide) hT
  simp only [String.toList, List.cons_append, List.nil_append, List.append_assoc] at h1 h2 hrel
  simp [bracedImport, contains, hasPrefix, h1, h2, hrel]

theorem split_bracedImport (X T : Str) (hX : ' ' ∉ X) (hT : ' ' ∉ T) :
    split (bracedImport X T) " ".toList
      = ["import".toList, "\x7b".toList ++ X ++ "\x7d".toList, "from".toList, T] := by
  refine split_tokens _ _ (by simp [bracedImport, joinWith]) (by simp) ?_
  intro t ht
  simp only [List.mem_cons, List.mem_singleton, List.not_mem_nil, or_false] at ht
  rcases ht with rfl | rfl | rfl | rfl <;> simp [hX, hT]

/-- The statement written by `createImportStatement` is a braced import whose
path token starts with `"../lib/`, has no space and has at least five
segments. -/
theorem createImportStatement_shape (cn imp stmt : Str) (himp : ' ' ∉ imp)
    (h : createImportStatement cn imp = (stmt, none)) :
    ∃ T, stmt = bracedImport cn T ∧ ' ' ∉ T ∧ hasPrefix T "\"./".toList = false
      ∧ 5 ≤ (split T "/".toList).length := by
  have e : "/".toList = ['/'] := rfl
  have hsub := split_single_mem_subset '/' imp
  have hsep := split_single_mem_no_sep '/' imp
  have hq : ∀ p : Str, p ∈ split imp ['/'] → ' ' ∉ replaceAll p ['"'] []
      ∧ '/' ∉ replaceAll p ['"'] [] := by
    intro p hp
    exact ⟨fun hx => himp (hsub p hp _ (replaceAll_single_nil_mem _ _ _ hx).1),
      fun hx => hsep p hp (replaceAll_single_nil_mem _ _ _ hx).1⟩
  unfold createImportStatement at h
  rw [e] at h
  rcases hs : split imp ['/'] with _ | ⟨a, _ | ⟨b, _ | ⟨d, _ | ⟨e, l⟩⟩⟩⟩
  · simp [hs] at h
  · simp [hs] at h
  · rw [hs] at hsub hsep hq h
    have ha := hq a (by simp)
    have hb : ' ' ∉ b := fun hx => himp (hsub b (by simp) _ hx)
    have hT : split ("\"..".toList ++ '/' :: ("lib".toList ++ '/' :: (replaceAll a ['"'] []
        ++ '/' :: ("src".toList ++ '/' :: b)))) ['/']
        = ["\"..".toList, "lib".toList, replaceAll a ['"'] [], "src".toList, b] := by
      rw [split_single_append _ _ _ (by decide), split_single_append _ _ _ (by decide),
        split_single_append _ _ _ ha.2, split_single_append _ _ _ (by decide),
        split_single_of_not_mem _ _ (hsep b (by simp))]
    refine ⟨"\"..".toList ++ '/' :: ("lib".toList ++ '/' :: (replaceAll a ['"'] []
        ++ '/' :: ("src".toList ++ '/' :: b))), ?_, ?_, ?_, ?_⟩
    · simp only [Prod.mk.injEq, and_true] at h
      rw [← h]
      simp [bracedImport, libFolder]
    · simp [ha.1, hb]
    · simp [hasPrefix]
    · rw [e, hT]; simp
  · rw [hs] at hsub hsep hq h
    have ha := hq a (by simp)
    have hb : ' ' ∉ b := fun hx => himp (hsub b (by simp) _ hx)
    have hd : ' ' ∉ d := fun hx => himp (hsub d (by simp) _ hx)
    have hT : split ("\"..".toList ++ '/' :: ("lib".toList ++ '/' :: (replaceAll a ['"'] []
        ++ '/' :: ("src".toList ++ '/' :: (b ++ '/' :: d))))) ['/']
        = ["\"..".toList, "lib".toList, replaceAll a ['"'] [], "src".toList, b, d] := by
      rw [split_single_append _ _ _ (by decide), split_single_append _ _ _ (by decide),
        split_single_append _ _ _ ha.2, split_single_append _ _ _ (by decide),
        split_single_append _ _ _ (hsep b (by simp)),
        split_single_of_not_mem _ _ (hsep d (by simp))]
    refine ⟨"\"..".toList ++ '/' :: ("lib".toList ++ '/' :: (replaceAll a ['"'] []
        ++ '/' :: ("src".toList ++ '/' :: (b ++ '/' :: d)))), ?_, ?_, ?_, ?_⟩
    · simp only [Prod.mk.injEq, and_true] at h
      rw [← h]
      simp [bracedImport, libFolder]
    · simp [ha.1, hb, hd]
    · simp [hasPrefix]
    · rw [e, hT]; simp
  · simp [hs] at h

/-- C19 (no idempotence): when the substitution of a logical statement `s`
writes the line `stmt`, that line given back to the program is an import with
both braces and without `from "./`, so it is not passed through but substituted
again; its path token `tok` has at least five segments, the program stops with
the error `Invalid import string: tok` and nothing is written. -/
theorem rewritten_line_fails_again (s stmt : Str)
    (h : substituteImport s (Run.stop Status.ok) = ⟨stmt ++ "\n".toList, Status.ok⟩) :
    contains stmt "import".toList = true ∧ contains stmt "from \"./".toList = false
      ∧ contains stmt "\x7b".toList = true ∧ contains stmt "\x7d".toList = true
      ∧ ∃ tok, 5 ≤ (split tok "/".toList).length
        ∧ ∀ rest : List Str, processLines (stmt :: rest)
          = ⟨[], Status.fatal ("Invalid import string: ".toList ++ tok)⟩ := by
  obtain ⟨t1, t3, h1, h3, hc⟩ := substituteImport_writes s stmt h
  have e : " ".toList = [' '] := rfl
  have eo : "\x7b".toList = ['\x7b'] := rfl
  have ec : "\x7d".toList = ['\x7d'] := rfl
  have en : "".toList = ([] : Str) := rfl
  rw [e] at h1 h3
  have ht1 : ' ' ∉ t1 := split_single_mem_no_sep ' ' s t1 (List.get?_mem h1)
  have ht3 : ' ' ∉ t3 := split_single_mem_no_sep ' ' s t3 (List.get?_mem h3)
  have hcn : ∀ x ∈ replaceAll (replaceAll t1 "\x7b".toList "".toList) "\x7d".toList "".toList,
      x ∈ t1 ∧ x ≠ '\x7b' ∧ x ≠ '\x7d' := by
    intro x hx
    rw [eo, ec, en] at hx
    have a := replaceAll_single_nil_mem _ _ _ hx
    have b := replaceAll_single_nil_mem _ _ _ a.1
    exact ⟨b.1, b.2, a.2⟩
  generalize replaceAll (replaceAll t1 "\x7b".toList "".toList) "\x7d".toList "".toList = cn
    at hc hcn
  have hcs : ' ' ∉ cn := fun hx => ht1 (hcn _ hx).1
  have hco : '\x7b' ∉ cn := fun hx => (hcn _ hx).2.1 rfl
  have hcc : '\x7d' ∉ cn := fun hx => (hcn _ hx).2.2 rfl
  obtain ⟨T, rfl, hT, hrel, hlen⟩ := createImportStatement_shape cn t3 stmt ht3 hc
  refine ⟨bracedImport_contains_import _ _, bracedImport_not_local _ _ hcs hT hrel,
    bracedImport_contains_open _ _, bracedImport_contains_close _ _, T, hlen, fun rest => ?_⟩
  rw [processLines_braced _ rest (bracedImport_contains_import _ _)
      (bracedImport_not_local _ _ hcs hT hrel) (bracedImport_contains_open _ _)
      (bracedImport_contains_close _ _),
    substituteImport_of_tokens _ _ _ ("\x7b".toList ++ cn ++ "\x7d".toList) T
      (split_bracedImport cn T hcs hT) (by simp) (by simp),
    contractName_of_braced cn hco hcc,
    createImportStatement_of_length cn T (Or.inr (by omega))]
  rfl

theorem rewritten_line_fails_again_witness :
    ∃ tok, 5 ≤ (split tok "/".toList).length
      ∧ ∀ rest : List Str,
        processLines ("import \x7bERC20\x7d from \"../lib/solmate/src/ERC20.sol\";".toList :: rest)
          = ⟨[], Status.fatal ("Invalid import string: ".toList ++ tok)⟩ :=
  (rewritten_line_fails_again "import \x7bERC20\x7d from \"solmate/ERC20.sol\";".toList
    "import \x7bERC20\x7d from \"../lib/solmate/src/ERC20.sol\";".toList (by decide)).2.2.2.2

end RemapImports
